import Mathlib

/-!
# The `find` command of SystemProgramming: embedding and verified properties

A shallow embedding of `Commands/find/find.c` and `Commands/find/find_options.c`
(namespace `Find`), of `compare_files` in `Commands/ls/ls_options.c` (namespace
`Ls`) and of `cat_file` in `Commands/cat/cat.c` (namespace `Cat`).

Conventions of the embedding
* C strings are Lean strings, which stand for their UTF-8 bytes; a `char *` that
  may be `NULL` is an `Option String`. Reading the byte at an index at or past
  the end yields the terminating NUL. Byte strings that are not UTF-8 (a file
  name in another encoding, a path cut inside a multi-byte character) have no
  counterpart in the embedding.
* `long`, `off_t` and `time_t` are 64-bit, `int` is 32-bit, `mode_t` and `uid_t`
  are unsigned 32-bit; values are integers with explicit wrap-around.
* The C library and the operating system are the environment of the program:
  `strtol` and `atoi` are modelled from the C standard (whitespace, sign, digits,
  clamping), `fnmatch`, `getpwnam` and `time` are fields of `Env`, and the
  file system is a finite tree of `Node`s that records what `lstat`, `stat`
  and `opendir`/`readdir` answer at each path.
* `PATH_MAX` is 4096: `snprintf_path` cuts the path that `find_recursive` builds
  for a child to the 4095 bytes that its buffer holds. The `Node` under a name
  of a listing records what the calls answer at the path so built; it is the
  entry of that name whenever the path fits (`paths_fit`).
* The traversal is embedded twice: `find_recursive` walks a finite tree of
  `Node`s by structural recursion, and `find_recursive_fuel` walks a
  `FileSystem` given by the answers of its calls at each path, with a bound on
  the recursion depth. `find_recursive_fuel_eq_tree` shows that they write the
  same output whenever the tree records the answers of the file system.
* For `cat_file` the input is the list of lines that `getline` delivers, each
  with its line terminator and with whatever NUL bytes the file holds, and the
  output is the list of `printf` calls made.
-/

namespace Find

/-! ## Machine integers -/

/-- Largest value of the C type `long` (64-bit). -/
def LONG_MAX : Int := 2 ^ 63 - 1

/-- Smallest value of the C type `long` (64-bit). -/
def LONG_MIN : Int := -(2 ^ 63)

/-- Largest value of the C type `int` (32-bit). -/
def INT_MAX : Int := 2 ^ 31 - 1

/-- Two's-complement reduction of an integer to the range of `long`. -/
def wrap_long (x : Int) : Int := (x + 2 ^ 63) % 2 ^ 64 - 2 ^ 63

/-- Two's-complement reduction of an integer to the range of `int`. -/
def wrap_int (x : Int) : Int := (x + 2 ^ 31) % 2 ^ 32 - 2 ^ 31

/-- Conversion of a `long` to the unsigned 32-bit `mode_t`. -/
def to_mode_t (x : Int) : Nat := (x % 2 ^ 32).toNat

/-! ## C strings and the C library -/

/-- The byte `s[i]` of a C string: the NUL terminator at or past the end. -/
def char_at (s : List Char) (i : Nat) : Char := s.getD i '\x00'

/-- The C library predicate `isspace` in the "C" locale. -/
def isspace (c : Char) : Bool :=
  c == ' ' || c == '\t' || c == '\n' || c == '\x0b' || c == '\x0c' || c == '\r'

/-- Value of `c` as a digit in `base` (bases up to 10: the program uses 8 and 10). -/
def digit_of (base : Nat) (c : Char) : Option Nat :=
  if '0' ≤ c ∧ c ≤ '9' ∧ c.toNat - 48 < base then some (c.toNat - 48) else none

/-- The digit-consuming loop of `strtol`: accumulated value and unread rest. -/
def strtol_digits (base : Nat) : List Char → Nat → Nat × List Char
  | [], acc => (acc, [])
  | c :: cs, acc =>
    match digit_of base c with
    | some d => strtol_digits base cs (acc * base + d)
    | none => (acc, c :: cs)

/-- The C library function `strtol(nptr, &endptr, base)` for `base ≤ 10`: skips
leading white space, reads an optional sign and the longest run of digits, and
returns the value clamped to the range of `long` together with `endptr`. When
no digit can be read the value is 0 and `endptr` is `nptr`. -/
def strtol (nptr : List Char) (base : Nat) : Int × List Char :=
  let s1 := nptr.dropWhile isspace
  let neg := char_at s1 0 == '-'
  let s2 := if char_at s1 0 == '-' || char_at s1 0 == '+' then s1.drop 1 else s1
  match digit_of base (char_at s2 0) with
  | none => (0, nptr)
  | some _ =>
    let r := strtol_digits base s2 0
    let v : Int := if neg then -(r.1 : Int) else (r.1 : Int)
    (max LONG_MIN (min LONG_MAX v), r.2)

/-- The C library function `atoi`: `(int) strtol(s, NULL, 10)`. -/
def atoi (s : List Char) : Int := wrap_int (strtol s 10).1

/-! ## find.c: specification parsers -/

/-- Embedding of `parse_size_spec` (find.c 43-60). -/
def parse_size_spec (size_spec : Option String) : Int :=
  match size_spec with
  | none => -1
  | some spec =>
    let s := spec.data
    let r := strtol (s.drop (if char_at s 0 == '+' || char_at s 0 == '-' then 1 else 0)) 10
    let size := r.1
    let endptr := r.2
    if char_at endptr 0 == 'k' || char_at endptr 0 == 'K' then
      wrap_long (size * 1024)
    else if char_at endptr 0 == 'M' then
      wrap_long (size * (1024 * 1024))
    else if char_at endptr 0 == 'G' then
      wrap_long (size * (1024 * 1024 * 1024))
    else
      size

/-- Embedding of `parse_perm_spec` (find.c 68-73). -/
def parse_perm_spec (perm_spec : Option String) : Nat :=
  match perm_spec with
  | none => 0
  | some spec => to_mode_t (strtol spec.data 8).1

/-! ## The environment: file metadata, identity lookup, globbing, clock -/

/-- The fields of `struct stat` that the program reads. -/
structure Stat where
  st_mode : Nat
  st_size : Int
  st_uid : Nat
  st_mtime : Int
  deriving DecidableEq, Repr

/-- File-type mask of `st_mode` (`<sys/stat.h>`). -/
def S_IFMT : Nat := 0o170000
/-- File-type bits of a regular file. -/
def S_IFREG : Nat := 0o100000
/-- File-type bits of a directory. -/
def S_IFDIR : Nat := 0o040000
/-- File-type bits of a symbolic link. -/
def S_IFLNK : Nat := 0o120000

/-- The macro `S_ISREG`. -/
def S_ISREG (m : Nat) : Bool := m &&& S_IFMT == S_IFREG
/-- The macro `S_ISDIR`. -/
def S_ISDIR (m : Nat) : Bool := m &&& S_IFMT == S_IFDIR

/-- The flag `FNM_CASEFOLD` of `<fnmatch.h>`. -/
def FNM_CASEFOLD : Nat := 16

/-- The collaborators of the predicate evaluator. `fnmatch pattern string flags`
returns 0 exactly when the string matches; `getpwnam name` is the `pw_uid` of
the password entry, if there is one; `now` is the reading of `time(NULL)`;
`uninit_st` is the content of a `struct stat` that no call has filled in. -/
structure Env where
  fnmatch : String → String → Nat → Int
  getpwnam : String → Option Nat
  now : Int
  uninit_st : Stat

/-- The value `(uid_t)-1`. -/
def UID_NONE : Nat := 4294967295

/-- Embedding of `get_uid_by_name` (find.c 81-84). -/
def get_uid_by_name (env : Env) (username : String) : Nat :=
  match env.getpwnam username with
  | some pw_uid => pw_uid
  | none => UID_NONE

/-- Embedding of `find_options_t` (find_options.h 25-47). -/
structure find_options_t where
  type_file : Bool
  type_dir : Bool
  empty_filter : Bool
  name_pattern : Option String
  iname_pattern : Option String
  size_spec : Option String
  user_name : Option String
  perm_spec : Option String
  mtime_days : Int
  mtime_prefix : Char
  mtime_set : Bool
  search_path : String
  deriving DecidableEq, Repr

/-- Embedding of `init_options` (find_options.c 29-40). -/
def init_options : find_options_t :=
  { type_file := false, type_dir := false, empty_filter := false,
    name_pattern := none, iname_pattern := none, size_spec := none,
    user_name := none, perm_spec := none,
    mtime_days := -1, mtime_prefix := '\x00', mtime_set := false,
    search_path := "." }

/-! ## find.c: the predicate evaluator -/

/-- The scan of `is_empty` over the directory stream (find.c 106-112): the count
of names other than "." and "..", stopping at the first one. -/
def is_empty_count : List String → Nat
  | [] => 0
  | d_name :: rest =>
    if d_name ≠ "." ∧ d_name ≠ ".." then 1 else is_empty_count rest

/-- Embedding of `is_empty` (find.c 93-117). `listing` is what `opendir(path)`
and `readdir` deliver: `none` when the directory cannot be opened, else the
names of the stream in order. -/
def is_empty (listing : Option (List String)) (st : Stat) : Bool :=
  if S_ISREG st.st_mode then
    st.st_size == 0
  else if S_ISDIR st.st_mode then
    match listing with
    | none => false
    | some names => is_empty_count names == 0
  else
    false

/-- The age in days of find.c 181-184:
`int days_diff = (now - file_time) / (24 * 60 * 60)`, a `time_t` subtraction
and division (rounding toward zero) converted to `int`. -/
def days_diff (now file_time : Int) : Int :=
  wrap_int (Int.tdiv (wrap_long (now - file_time)) (24 * 60 * 60))

/-- The body of the size block of `matches_criteria` (find.c 149-159), entered
when `opts->size_spec` is not `NULL`: true when the block returns false. -/
def size_block_fails (size_spec : String) (st_size : Int) : Bool :=
  let target_size := parse_size_spec (some size_spec)
  if target_size < 0 then true
  else if char_at size_spec.data 0 == '+' && decide (st_size ≤ target_size) then true
  else if char_at size_spec.data 0 == '-' && decide (st_size ≥ target_size) then true
  else if char_at size_spec.data 0 != '+' && char_at size_spec.data 0 != '-'
      && st_size != target_size then true
  else false

/-- The comparison chain of the age block of `matches_criteria` (find.c 187-193)
on the computed `days_diff`: true when the block returns false. -/
def mtime_block_fails ( mtime_prefix : Char) (mtime_days : Int) (days_diff : Int) : Bool :=
  if mtime_prefix == '+' && decide (days_diff ≤ mtime_days) then true
  else if mtime_prefix == '-' && decide (days_diff ≥ mtime_days) then true
  else if mtime_prefix == '\x00' && days_diff != mtime_days then true
  else false

/-- Embedding of `matches_criteria` (find.c 128-202). `listing` stands for the
directory stream of `filepath`, which only `is_empty` consults. A test
`p && cond(p)` on a nullable string is `Option.any`. -/
def matches_criteria (env : Env) (listing : Option (List String)) (filename : String)
    (st : Stat) (opts : find_options_t) : Bool :=
  if opts.type_file && !S_ISREG st.st_mode then false
  else if opts.type_dir && !S_ISDIR st.st_mode then false
  else if opts.name_pattern.any (fun pattern => env.fnmatch pattern filename 0 != 0) then false
  else if opts.iname_pattern.any
      (fun pattern => env.fnmatch pattern filename FNM_CASEFOLD != 0) then false
  else if opts.size_spec.any (fun size_spec => size_block_fails size_spec st.st_size) then false
  else if opts.user_name.any (fun user_name =>
      get_uid_by_name env user_name == UID_NONE
        || st.st_uid != get_uid_by_name env user_name) then false
  else if opts.perm_spec.any (fun perm_spec =>
      st.st_mode &&& 0o777 != parse_perm_spec (some perm_spec)) then false
  else if opts.mtime_set
      && mtime_block_fails opts.mtime_prefix opts.mtime_days
          (days_diff env.now st.st_mtime) then false
  else if opts.empty_filter && !is_empty listing st then false
  else true

/-! ## find.c: the traversal -/

/-- A file-system entry as the walk observes it: the answer of `lstat` and of
`stat` at its path (`none` on failure) and the answer of `opendir` followed by
`readdir` until exhaustion (`none` when the directory cannot be opened, else
each `d_name` in stream order with what the walk observes at the path it
builds for that name, which is `path/d_name` when that fits the path buffer). -/
inductive Node where
  | mk (lstat : Option Stat) (stat : Option Stat) (dir : Option (List (String × Node)))

/-- What `lstat` answers at the entry. -/
def Node.lstat : Node → Option Stat
  | .mk l _ _ => l

/-- What `stat` answers at the entry. -/
def Node.stat : Node → Option Stat
  | .mk _ s _ => s

/-- What `opendir` and `readdir` deliver at the entry. -/
def Node.dir : Node → Option (List (String × Node))
  | .mk _ _ d => d

/-- The names of the directory stream at the entry. -/
def Node.listing (n : Node) : Option (List String) :=
  n.dir.map (List.map Prod.fst)

/-- One line written by the program. -/
inductive Output where
  | stdout (line : String)
  | stderr (path : String)
  deriving DecidableEq, Repr

/-- The size of the buffer `filepath` of `find_recursive` (find.c 30-33, 214). -/
def PATH_MAX : Nat := 4096

/-- The number of bytes that a character takes in a C string (UTF-8). -/
def utf8_size (c : Char) : Nat :=
  if c.toNat < 0x80 then 1
  else if c.toNat < 0x800 then 2
  else if c.toNat < 0x10000 then 3
  else 4

/-- The bytes of a character in a C string (UTF-8). -/
def utf8_bytes (c : Char) : List Nat :=
  if c.toNat < 0x80 then [c.toNat]
  else if c.toNat < 0x800 then [0xC0 + c.toNat / 0x40, 0x80 + c.toNat % 0x40]
  else if c.toNat < 0x10000 then
    [0xE0 + c.toNat / 0x1000, 0x80 + c.toNat / 0x40 % 0x40, 0x80 + c.toNat % 0x40]
  else
    [0xF0 + c.toNat / 0x40000, 0x80 + c.toNat / 0x1000 % 0x40, 0x80 + c.toNat / 0x40 % 0x40,
      0x80 + c.toNat % 0x40]

/-- The C library function `strlen`: the number of bytes of a C string. -/
def strlen : List Char → Nat
  | [] => 0
  | c :: rest => utf8_size c + strlen rest

/-- The leading characters of a string that fit into `room` bytes. -/
def take_bytes : Nat → List Char → List Char
  | _, [] => []
  | room, c :: rest =>
    if utf8_size c ≤ room then c :: take_bytes (room - utf8_size c) rest else []

/-- Embedding of `snprintf(filepath, sizeof(filepath), "%s/%s", path, d_name)`
(find.c 248): the text `path/d_name`, cut to the `PATH_MAX - 1` bytes that the
buffer holds before its terminating NUL. Where the cut falls inside a
multi-byte character, that character is left out as a whole. -/
def snprintf_path (path d_name : String) : String :=
  String.mk (take_bytes (PATH_MAX - 1) (path.data ++ '/' :: d_name.data))

/-- The file name of find.c 219-220: the text after the last '/' of `path`, or
all of `path` when it has none. -/
def filename_of (path : String) : String :=
  String.mk (path.data.reverse.takeWhile (fun c => c != '/')).reverse

mutual
/-- Embedding of `find_recursive` (find.c 210-267) on the entry found at `path`.
`printf("%s\n", path)` is `Output.stdout path`, `perror(path)` is
`Output.stderr path`. -/
def find_recursive (env : Env) (opts : find_options_t) (path : String) : Node → List Output
  | .mk _ stat_result dir =>
    let printed : List Output :=
      match stat_result with
      | some st =>
        if matches_criteria env (dir.map (List.map Prod.fst)) (filename_of path) st opts then
          [Output.stdout path]
        else []
      | none => []
    let st : Stat := stat_result.getD env.uninit_st
    if !S_ISDIR st.st_mode then printed
    else
      match dir with
      | none => printed ++ [Output.stderr path]
      | some entries => printed ++ find_recursive_loop env opts path entries
/-- The `readdir` loop of `find_recursive` (find.c 241-264). -/
def find_recursive_loop (env : Env) (opts : find_options_t) (path : String) :
    List (String × Node) → List Output
  | [] => []
  | (d_name, child) :: rest =>
    if d_name == "." || d_name == ".." then find_recursive_loop env opts path rest
    else
      let filepath := snprintf_path path d_name
      match child.lstat with
      | none => find_recursive_loop env opts path rest
      | some st =>
        (if matches_criteria env child.listing d_name st opts then
            [Output.stdout filepath] else [])
          ++ (if S_ISDIR st.st_mode then find_recursive env opts filepath child else [])
          ++ find_recursive_loop env opts path rest
end

/-- The lines of standard output, in order. -/
def printed_paths : List Output → List String
  | [] => []
  | Output.stdout line :: rest => line :: printed_paths rest
  | Output.stderr _ :: rest => printed_paths rest

/-! ## find_options.c: the command line -/

/-- How the letter loop over one option token ends (find_options.c 120-217):
the letters are exhausted, or an option took `argv[++i]` as its argument and
jumped to `next_arg`, or `parse_options` returned. -/
inductive LetterResult where
  | exhausted (opts : find_options_t)
  | took_next (opts : find_options_t)
  | returned (code : Int) (opts : find_options_t)

/-- The `-t` case of `parse_options` (find_options.c 187-201) on `time_arg`. -/
def set_mtime (opts : find_options_t) (time_arg : String) : find_options_t :=
  if char_at time_arg.data 0 == '+' then
    { opts with mtime_prefix := '+', mtime_days := atoi (time_arg.data.drop 1),
                mtime_set := true }
  else if char_at time_arg.data 0 == '-' then
    { opts with mtime_prefix := '-', mtime_days := atoi (time_arg.data.drop 1),
                mtime_set := true }
  else
    { opts with mtime_prefix := '\x00', mtime_days := atoi time_arg.data,
                mtime_set := true }

/-- The letter loop of `parse_options` (find_options.c 120-217) from letter `j`
on: the argument is `arg[j..]`, and `next` is `argv[i+1]` when `i + 1 < argc`.
The test `j == strlen(arg) - 1` holds when no letter follows. -/
def parse_letters (next : Option String) : List Char → find_options_t → LetterResult
  | [], opts => LetterResult.exhausted opts
  | c :: cs, opts =>
    if c == 'f' then parse_letters next cs { opts with type_file := true }
    else if c == 'd' then parse_letters next cs { opts with type_dir := true }
    else if c == 'e' then parse_letters next cs { opts with empty_filter := true }
    else if c == 'n' then
      match cs, next with
      | [], some a => LetterResult.took_next { opts with name_pattern := some a }
      | _, _ => LetterResult.returned (-1) opts
    else if c == 'i' then
      match cs, next with
      | [], some a => LetterResult.took_next { opts with iname_pattern := some a }
      | _, _ => LetterResult.returned (-1) opts
    else if c == 's' then
      match cs, next with
      | [], some a => LetterResult.took_next { opts with size_spec := some a }
      | _, _ => LetterResult.returned (-1) opts
    else if c == 'u' then
      match cs, next with
      | [], some a => LetterResult.took_next { opts with user_name := some a }
      | _, _ => LetterResult.returned (-1) opts
    else if c == 'p' then
      match cs, next with
      | [], some a => LetterResult.took_next { opts with perm_spec := some a }
      | _, _ => LetterResult.returned (-1) opts
    else if c == 't' then
      match cs, next with
      | [], some time_arg => LetterResult.took_next (set_mtime opts time_arg)
      | _, _ => LetterResult.returned (-1) opts
    else if c == 'h' then LetterResult.returned 1 opts
    else LetterResult.returned (-1) opts

/-- The token loop of `parse_options` (find_options.c 111-223) over
`argv[i..argc-1]`. `skip` is set when the previous token took `argv[i]` as its
argument (`++i` followed by the `i++` of the loop). -/
def parse_loop (skip : Bool) : List String → find_options_t → Int × find_options_t
  | [], opts => (0, opts)
  | a :: rest, opts =>
    if skip then parse_loop false rest opts
    else if char_at a.data 0 != '-' then parse_loop false rest opts
    else
      match parse_letters rest.head? (a.data.drop 1) opts with
      | LetterResult.exhausted o => parse_loop false rest o
      | LetterResult.took_next o => parse_loop true rest o
      | LetterResult.returned code o => (code, o)

/-- Embedding of `parse_options` (find_options.c 93-224): the return value and
the options as left behind. `argv` holds `argc` strings, `argv[0]` first. -/
def parse_options (argv : List String) (opts : find_options_t) : Int × find_options_t :=
  match argv with
  | _ :: first :: rest =>
    if char_at first.data 0 != '-' then
      parse_loop false rest { opts with search_path := first }
    else
      parse_loop false (first :: rest) opts
  | _ => (0, opts)

/-! ## Vocabulary of the specification -/

/-- A character is a digit of the given base (at most 10). -/
def is_digit (base : Nat) (c : Char) : Prop := '0' ≤ c ∧ c ≤ '9' ∧ c.toNat - 48 < base

instance (base : Nat) (c : Char) : Decidable (is_digit base c) := by
  unfold is_digit; infer_instance

/-- Value of a string of digits read in `base`, most significant digit first. -/
def digits_value (base : Nat) (ds : List Char) : Nat :=
  Nat.ofDigits base (ds.reverse.map (fun c => c.toNat - 48))

/-- The size criterion holds for an entry of size `st_size`: the parsed
magnitude is not negative and the size compares with it as the leading sign
says ('+' strictly greater, '-' strictly less, no sign equal). -/
def size_holds (size_spec : String) (st_size : Int) : Prop :=
  0 ≤ parse_size_spec (some size_spec) ∧
    (char_at size_spec.data 0 = '+' → parse_size_spec (some size_spec) < st_size) ∧
    (char_at size_spec.data 0 = '-' → st_size < parse_size_spec (some size_spec)) ∧
    (char_at size_spec.data 0 ≠ '+' → char_at size_spec.data 0 ≠ '-' →
      st_size = parse_size_spec (some size_spec))

/-- The owner criterion holds: the name resolves and the entry belongs to it. -/
def owner_holds (env : Env) (user_name : String) (st_uid : Nat) : Prop :=
  get_uid_by_name env user_name ≠ UID_NONE ∧ st_uid = get_uid_by_name env user_name

/-- The permission criterion holds: the low 9 bits of the mode are the parsed
specification. -/
def perm_holds (perm_spec : String) (st_mode : Nat) : Prop :=
  st_mode &&& 0o777 = parse_perm_spec (some perm_spec)

/-- The age criterion holds for an entry aged `d` days: '+' strictly older,
'-' strictly newer, no prefix exactly `mtime_days`. -/
def age_holds ( mtime_prefix : Char) (mtime_days d : Int) : Prop :=
  ( mtime_prefix = '+' → mtime_days < d) ∧ ( mtime_prefix = '-' → d < mtime_days) ∧
    ( mtime_prefix = '\x00' → d = mtime_days)

/-- Every criterion that is set holds for the entry, each on its own. -/
def criteria_hold (env : Env) (listing : Option (List String)) (filename : String)
    (st : Stat) (opts : find_options_t) : Prop :=
  (opts.type_file = true → S_ISREG st.st_mode = true) ∧
  (opts.type_dir = true → S_ISDIR st.st_mode = true) ∧
  (∀ pattern, opts.name_pattern = some pattern → env.fnmatch pattern filename 0 = 0) ∧
  (∀ pattern, opts.iname_pattern = some pattern →
    env.fnmatch pattern filename FNM_CASEFOLD = 0) ∧
  (∀ size_spec, opts.size_spec = some size_spec → size_holds size_spec st.st_size) ∧
  (∀ user_name, opts.user_name = some user_name → owner_holds env user_name st.st_uid) ∧
  (∀ perm_spec, opts.perm_spec = some perm_spec → perm_holds perm_spec st.st_mode) ∧
  (opts.mtime_set = true →
    age_holds opts.mtime_prefix opts.mtime_days (days_diff env.now st.st_mtime)) ∧
  (opts.empty_filter = true → is_empty listing st = true)

/-- The criteria `weaker` are `opts` with some criteria unset: whatever is set
in `weaker` is set to the same value in `opts`. -/
def unset_of (weaker opts : find_options_t) : Prop :=
  (weaker.type_file = true → opts.type_file = true) ∧
  (weaker.type_dir = true → opts.type_dir = true) ∧
  (∀ pattern, weaker.name_pattern = some pattern → opts.name_pattern = some pattern) ∧
  (∀ pattern, weaker.iname_pattern = some pattern → opts.iname_pattern = some pattern) ∧
  (∀ size_spec, weaker.size_spec = some size_spec → opts.size_spec = some size_spec) ∧
  (∀ user_name, weaker.user_name = some user_name → opts.user_name = some user_name) ∧
  (∀ perm_spec, weaker.perm_spec = some perm_spec → opts.perm_spec = some perm_spec) ∧
  (weaker.mtime_set = true →
    opts.mtime_set = true ∧ opts.mtime_prefix = weaker.mtime_prefix ∧
      opts.mtime_days = weaker.mtime_days) ∧
  (weaker.empty_filter = true → opts.empty_filter = true)

/-- No criterion is set. -/
def no_criteria (opts : find_options_t) : Prop :=
  opts.type_file = false ∧ opts.type_dir = false ∧ opts.name_pattern = none ∧
  opts.iname_pattern = none ∧ opts.size_spec = none ∧ opts.user_name = none ∧
  opts.perm_spec = none ∧ opts.mtime_set = false ∧ opts.empty_filter = false

/-- The age of the specification: the floor of the elapsed seconds over 86400. -/
def floor_age (now mtime : Int) : Int := ⌊((now - mtime : Int) : ℚ) / 86400⌋

mutual
/-- The paths of all entries of the tree at `path`: the entry itself and, when
its own metadata say directory, the entries under each name of its listing
other than "." and "..". -/
def entries (path : String) : Node → List String
  | .mk lstat _ dir =>
    path ::
      (match lstat, dir with
       | some st, some children =>
         if S_ISDIR st.st_mode then entries_below path children else []
       | _, _ => [])
/-- The paths of all entries under the names of a listing. -/
def entries_below (path : String) : List (String × Node) → List String
  | [] => []
  | (d_name, child) :: rest =>
    if d_name = "." ∨ d_name = ".." then entries_below path rest
    else entries (path ++ "/" ++ d_name) child ++ entries_below path rest
end

mutual
/-- Every metadata fetch and every directory open of a walk into the entry
succeeds: `lstat` answers, and when it says directory `stat` agrees, the
directory opens, and the same holds of each child that is not "." or "..". -/
def all_succeed : Node → Prop
  | .mk lstat stat dir =>
    match lstat with
    | none => False
    | some l =>
      S_ISDIR l.st_mode = true →
        (match stat with
         | none => False
         | some s => S_ISDIR s.st_mode = true) ∧
        (match dir with
         | none => False
         | some children => all_succeed_below children)
/-- The children of a listing all succeed. -/
def all_succeed_below : List (String × Node) → Prop
  | [] => True
  | (d_name, child) :: rest =>
    (d_name = "." ∨ d_name = ".." ∨ all_succeed child) ∧ all_succeed_below rest
end

/-- At the root of a walk `stat` answers, and it says directory only when the
root itself is one (the root is not a symbolic link to a directory). -/
def root_resolved (root : Node) : Prop :=
  ∃ s l, root.stat = some s ∧ root.lstat = some l ∧
    (S_ISDIR s.st_mode = true → S_ISDIR l.st_mode = true)

/-- The entry that accompanies "." and ".." in a listing; the walk never looks at it. -/
def pseudo_entry : Node := Node.mk none none none

/-- Metadata of a directory with mode 0755. -/
def dir_stat : Stat := { st_mode := 0o040755, st_size := 4096, st_uid := 0, st_mtime := 0 }

/-- Metadata of a regular file with mode 0644 and the given size. -/
def file_stat (size : Int) : Stat :=
  { st_mode := 0o100644, st_size := size, st_uid := 0, st_mtime := 0 }

/-- A directory entry with the given children, "." and ".." first. -/
def dir_node (children : List (String × Node)) : Node :=
  Node.mk (some dir_stat) (some dir_stat)
    (some ((".", pseudo_entry) :: ("..", pseudo_entry) :: children))

/-- A regular file of the given size; `opendir` on it fails. -/
def file_node (size : Int) : Node :=
  Node.mk (some (file_stat size)) (some (file_stat size)) none

/-- The tree `root/{b/}`: a directory whose only child is an empty directory. -/
def tree_root_b : Node := dir_node [("b", dir_node [])]

/-- The tree `root/{a.txt (0 bytes), b/{c.log (10 bytes)}}`. -/
def tree_a_b_c : Node :=
  dir_node [("a.txt", file_node 0), ("b", dir_node [("c.log", file_node 10)])]

/-- An environment with literal pattern matching, no users, and the clock at 0. -/
def plain_env : Env :=
  { fnmatch := fun pattern string _ => if pattern = string then 0 else 1,
    getpwnam := fun _ => none,
    now := 0,
    uninit_st := { st_mode := 0, st_size := 0, st_uid := 0, st_mtime := 0 } }

/-! ## find.c: the entry point -/

/-- What a run of `main` amounts to: the exit status, and the output of the walk
when `find_recursive` is started (`none` when it never is). Messages that
`parse_options` writes are left out. -/
structure MainResult where
  exit_code : Int
  walk : Option (List Output)
  deriving DecidableEq, Repr

/-- Embedding of `main` (find.c 273-298). `entry_at path` is the file-system
entry found at `path`. -/
def main (env : Env) (entry_at : String → Node) (argv : List String) : MainResult :=
  let r := parse_options argv init_options
  let parse_result := r.1
  let opts := r.2
  if parse_result != 0 then
    if parse_result == 1 then { exit_code := 0, walk := none }
    else { exit_code := 1, walk := none }
  else
    { exit_code := 0,
      walk := some (find_recursive env opts opts.search_path (entry_at opts.search_path)) }

/-! ## The traversal over a file system given by its system calls -/

/-- A file system as the answers of its calls at each path: `lstat`, `stat`
(`none` on failure) and `opendir` followed by `readdir` until exhaustion
(`none` when the directory cannot be opened, else the names in stream order).
Nothing ties the answers at different paths together, so symbolic links that
lead back to an ancestor are covered. -/
structure FileSystem where
  lstat : String → Option Stat
  stat : String → Option Stat
  opendir : String → Option (List String)

/-- The `readdir` loop of `find_recursive` (find.c 241-264) over the names of the
stream; `descend` is the recursive call of find.c 262. `none` when a recursive
call does not return. -/
def find_recursive_fuel_loop (env : Env) (fs : FileSystem) (opts : find_options_t)
    (descend : String → Option (List Output)) (path : String) :
    List String → Option (List Output)
  | [] => some []
  | d_name :: rest =>
    if d_name == "." || d_name == ".." then
      find_recursive_fuel_loop env fs opts descend path rest
    else
      let filepath := snprintf_path path d_name
      match fs.lstat filepath with
      | none => find_recursive_fuel_loop env fs opts descend path rest
      | some st =>
        match (if S_ISDIR st.st_mode then descend filepath else some []),
            find_recursive_fuel_loop env fs opts descend path rest with
        | some below, some after =>
          some ((if matches_criteria env (fs.opendir filepath) d_name st opts then
                  [Output.stdout filepath] else [])
                ++ below ++ after)
        | _, _ => none

/-- Embedding of `find_recursive` (find.c 210-267) over a `FileSystem`, with a
bound `fuel` on the depth of recursive calls: `none` when the bound is
exhausted, else the output of the call. -/
def find_recursive_fuel (env : Env) (fs : FileSystem) (opts : find_options_t) :
    Nat → String → Option (List Output)
  | 0, _ => none
  | fuel + 1, path =>
    let printed : List Output :=
      match fs.stat path with
      | some st =>
        if matches_criteria env (fs.opendir path) (filename_of path) st opts then
          [Output.stdout path]
        else []
      | none => []
    let st : Stat := (fs.stat path).getD env.uninit_st
    if !S_ISDIR st.st_mode then some printed
    else
      match fs.opendir path with
      | none => some (printed ++ [Output.stderr path])
      | some names =>
        (find_recursive_fuel_loop env fs opts (find_recursive_fuel env fs opts fuel) path
            names).map
          (fun below => printed ++ below)

/-! ## Vocabulary of the specification, continued -/

/-- What `strtol` looks at for its first digit: the string after leading white
space and one optional sign. -/
def after_space_and_sign (s : List Char) : List Char :=
  if char_at (s.dropWhile isspace) 0 = '+' ∨ char_at (s.dropWhile isspace) 0 = '-' then
    (s.dropWhile isspace).drop 1
  else s.dropWhile isspace

/-- The string is not an octal number: no octal digit follows the optional
white space and sign. -/
def not_octal_number (s : List Char) : Prop :=
  ¬ is_digit 8 (char_at (after_space_and_sign s) 0)

instance (s : List Char) : Decidable (not_octal_number s) := by
  unfold not_octal_number; infer_instance

/-- The string has no decimal digit at all. -/
def no_decimal_digit (s : List Char) : Prop := ∀ c ∈ s, ¬ is_digit 10 c

/-- The base name of a path in the sense of `basename(3)`: trailing slashes are
dropped and the text after the last remaining slash is taken; "." for the
empty path and "/" for a path of slashes only. -/
def base_name (path : String) : String :=
  if path.data = [] then "."
  else if path.data.reverse.dropWhile (fun c => c == '/') = [] then "/"
  else
    String.mk
      ((path.data.reverse.dropWhile (fun c => c == '/')).takeWhile (fun c => c != '/')).reverse

/-- Metadata of a symbolic link. -/
def link_stat : Stat := { st_mode := 0o120777, st_size := 4, st_uid := 0, st_mtime := 0 }

/-- A symbolic link to a directory that holds the one file `f`: `lstat` answers
for the link, `stat` and `opendir` for the directory it points to. -/
def link_to_dir : Node :=
  Node.mk (some link_stat) (some dir_stat)
    (some [(".", pseudo_entry), ("..", pseudo_entry), ("f", file_node 1)])

/-- The tree `root/{gone, a.txt}` in which `lstat` fails on `root/gone`. -/
def tree_gone : Node := dir_node [("gone", Node.mk none none none), ("a.txt", file_node 0)]

/-- A directory that cannot be opened. -/
def closed_dir : Node := Node.mk (some dir_stat) (some dir_stat) none

/-- The tree `root/{a.txt, b/ (cannot be opened), z.txt}`. -/
def tree_closed_b : Node :=
  dir_node [("a.txt", file_node 0), ("b", closed_dir), ("z.txt", file_node 3)]

/-- A file system with a cycle: the directory `root` holds the symbolic link
`self` that points back to `root`, so every path `root/self/.../self` resolves
to that directory. -/
def cyclic_fs : FileSystem :=
  { lstat := fun path => if path = "root" then some dir_stat else some link_stat,
    stat := fun _ => some dir_stat,
    opendir := fun _ => some [".", "..", "self"] }

mutual
/-- The tree records the answers of the file system at `path` and beneath it,
as far as a walk from `path` asks for them: the answers of `stat`, `lstat` and
`opendir` at the entry, the answer of `lstat` at the path built for each child
other than "." and "..", and the same again at every child that `lstat`
reports as a directory. -/
def recorded_by (fs : FileSystem) (path : String) : Node → Prop
  | .mk lstat stat dir =>
    fs.lstat path = lstat ∧ fs.stat path = stat ∧
      (match dir with
       | none => fs.opendir path = none
       | some children =>
         fs.opendir path = some (children.map Prod.fst) ∧ recorded_below fs path children)
/-- The children of a listing record the answers of the file system. -/
def recorded_below (fs : FileSystem) (path : String) : List (String × Node) → Prop
  | [] => True
  | (d_name, child) :: rest =>
    (d_name = "." ∨ d_name = ".." ∨
      (fs.lstat (snprintf_path path d_name) = child.lstat ∧
        ∀ st, child.lstat = some st → S_ISDIR st.st_mode = true →
          recorded_by fs (snprintf_path path d_name) child))
      ∧ recorded_below fs path rest
end

/-- The finite tree a walk of `cyclic_fs` from "root" sees: the directory and
its link `self`, the link recorded by its own metadata only. -/
def cyclic_tree : Node :=
  Node.mk (some dir_stat) (some dir_stat)
    (some [(".", pseudo_entry), ("..", pseudo_entry), ("self", Node.mk (some link_stat) none none)])

/-! ## Vocabulary of the specification: the command line -/

/-- The options with the search path replaced. -/
def with_search_path (path : String) (opts : find_options_t) : find_options_t :=
  { opts with search_path := path }

/-- The outcome of a letter loop with the search path replaced in its options. -/
def LetterResult.with_search_path (path : String) : LetterResult → LetterResult
  | LetterResult.exhausted o => LetterResult.exhausted (Find.with_search_path path o)
  | LetterResult.took_next o => LetterResult.took_next (Find.with_search_path path o)
  | LetterResult.returned code o => LetterResult.returned code (Find.with_search_path path o)

/-- The return value carried by the outcome of a letter loop, if it returned. -/
def LetterResult.code : LetterResult → Option Int
  | LetterResult.returned code _ => some code
  | _ => none

/-- A letter that only sets a flag and lets parsing go on: f, d or e. -/
def is_flag_letter (c : Char) : Prop := c = 'f' ∨ c = 'd' ∨ c = 'e'

/-- A letter that takes the following argument: n, i, s, u, p or t. -/
def takes_argument (c : Char) : Prop :=
  c = 'n' ∨ c = 'i' ∨ c = 's' ∨ c = 'u' ∨ c = 'p' ∨ c = 't'

/-- A letter that is no option of the program. -/
def is_unknown_letter (c : Char) : Prop :=
  ¬ is_flag_letter c ∧ ¬ takes_argument c ∧ c ≠ 'h'

/-- The return value the specification assigns to the arguments after the
program name, read token by token. A token that does not begin with '-' is
passed over. In an option token the flag letters f, d, e are passed over; the
first other letter decides: 'h' gives 1; an unknown letter gives -1; an
argument-taking letter gives -1 when a letter follows it in the token or no
argument follows the token, and otherwise takes the next argument, after
which reading goes on. When the arguments are used up the value is 0. -/
inductive ReturnsCode : List String → Int → Prop where
  | used_up : ReturnsCode [] 0
  | operand (a : String) (rest : List String) (code : Int) :
      char_at a.data 0 ≠ '-' → ReturnsCode rest code → ReturnsCode (a :: rest) code
  | flags_only (a : String) (rest : List String) (code : Int) (flags : List Char) :
      a.data = '-' :: flags → (∀ c ∈ flags, is_flag_letter c) → ReturnsCode rest code →
      ReturnsCode (a :: rest) code
  | with_argument (a arg : String) (rest : List String) (code : Int) (flags : List Char)
      (c : Char) :
      a.data = '-' :: (flags ++ [c]) → (∀ x ∈ flags, is_flag_letter x) → takes_argument c →
      ReturnsCode rest code → ReturnsCode (a :: arg :: rest) code
  | help (a : String) (rest : List String) (flags cs : List Char) :
      a.data = '-' :: (flags ++ 'h' :: cs) → (∀ x ∈ flags, is_flag_letter x) →
      ReturnsCode (a :: rest) 1
  | unknown (a : String) (rest : List String) (flags : List Char) (c : Char) (cs : List Char) :
      a.data = '-' :: (flags ++ c :: cs) → (∀ x ∈ flags, is_flag_letter x) →
      is_unknown_letter c → ReturnsCode (a :: rest) (-1)
  | bundled (a : String) (rest : List String) (flags : List Char) (c d : Char)
      (cs : List Char) :
      a.data = '-' :: (flags ++ c :: d :: cs) → (∀ x ∈ flags, is_flag_letter x) →
      takes_argument c → ReturnsCode (a :: rest) (-1)
  | missing (a : String) (flags : List Char) (c : Char) :
      a.data = '-' :: (flags ++ [c]) → (∀ x ∈ flags, is_flag_letter x) → takes_argument c →
      ReturnsCode [a] (-1)

/-! ## Vocabulary of the specification: how often an entry is reported -/

/-- The tree `root/{a.txt (0 bytes), b/{c.log (10 bytes)}}` with the byte sizes
that the metadata provider reports for the two directories left open. -/
def tree_a_b_c_sized (root_size b_size : Int) : Node :=
  Node.mk (some { dir_stat with st_size := root_size })
    (some { dir_stat with st_size := root_size })
    (some [(".", pseudo_entry), ("..", pseudo_entry), ("a.txt", file_node 0),
      ("b", Node.mk (some { dir_stat with st_size := b_size })
          (some { dir_stat with st_size := b_size })
          (some [(".", pseudo_entry), ("..", pseudo_entry), ("c.log", file_node 10)]))])

mutual
/-- The reports the specification expects for an entry below the root, found
under the name `d_name` at `path`, and for what lies beneath it: the path
twice when the entry is a matching directory, once when it is a matching entry
of another type, followed by the reports for the children of a directory. -/
def expected_reports (env : Env) (opts : find_options_t) (d_name path : String) :
    Node → List String
  | .mk none _ _ => []
  | .mk (some st) _ none =>
    if matches_criteria env none d_name st opts then
      List.replicate (if S_ISDIR st.st_mode then 2 else 1) path
    else []
  | .mk (some st) _ (some children) =>
    (if matches_criteria env (some (children.map Prod.fst)) d_name st opts then
        List.replicate (if S_ISDIR st.st_mode then 2 else 1) path
      else [])
      ++ (if S_ISDIR st.st_mode then expected_reports_below env opts path children else [])
/-- The expected reports for the children of a listing, in stream order. -/
def expected_reports_below (env : Env) (opts : find_options_t) (path : String) :
    List (String × Node) → List String
  | [] => []
  | (d_name, child) :: rest =>
    if d_name = "." ∨ d_name = ".." then expected_reports_below env opts path rest
    else
      expected_reports env opts d_name (path ++ "/" ++ d_name) child
        ++ expected_reports_below env opts path rest
end

/-- The reports the specification expects for a walk from the root: the root
path once when the root matches, followed by the reports for its children
when it is a directory. -/
def expected_root_reports (env : Env) (opts : find_options_t) (path : String) :
    Node → List String
  | .mk _ none _ => []
  | .mk _ (some st) none =>
    if matches_criteria env none (filename_of path) st opts then [path] else []
  | .mk _ (some st) (some children) =>
    (if matches_criteria env (some (children.map Prod.fst)) (filename_of path) st opts then
        [path] else [])
      ++ (if S_ISDIR st.st_mode then expected_reports_below env opts path children else [])

mutual
/-- The entry is part of an unchanging tree in which every fetch and open
succeeds: `lstat` answers; for a directory `stat` gives the same metadata, the
directory opens, and every child other than "." and ".." has a name without
'/' and is such an entry itself. -/
def steady : Node → Prop
  | .mk none _ _ => False
  | .mk (some l) _ none => S_ISDIR l.st_mode = false
  | .mk (some l) stat (some children) =>
    S_ISDIR l.st_mode = true → stat = some l ∧ steady_below children
/-- The children of a listing are steady. -/
def steady_below : List (String × Node) → Prop
  | [] => True
  | (d_name, child) :: rest =>
    (d_name = "." ∨ d_name = ".." ∨ ('/' ∉ d_name.data ∧ steady child)) ∧ steady_below rest
end

/-- The root of a walk in an unchanging tree in which every fetch and open
succeeds: `stat` answers, and when it says directory the directory opens and
its children are steady. -/
def steady_root : Node → Prop
  | .mk _ none _ => False
  | .mk _ (some s) none => S_ISDIR s.st_mode = false
  | .mk _ (some s) (some children) => S_ISDIR s.st_mode = true → steady_below children

/-! ## Vocabulary of the specification: paths and the path buffer -/

mutual
/-- Every path of the tree at `path` fits the buffer of `find_recursive`: for
each child other than "." and "..", here and beneath, the path of the child
takes less than `PATH_MAX` bytes. -/
def paths_fit (path : String) : Node → Prop
  | .mk _ _ none => True
  | .mk _ _ (some children) => paths_fit_below path children
/-- The paths of the children of a listing, and beneath them, fit the buffer. -/
def paths_fit_below (path : String) : List (String × Node) → Prop
  | [] => True
  | (d_name, child) :: rest =>
    (d_name = "." ∨ d_name = ".." ∨
      (strlen (path ++ "/" ++ d_name).data < PATH_MAX ∧
        paths_fit (path ++ "/" ++ d_name) child))
      ∧ paths_fit_below path rest
end

/-- The characters of the path `d/d/.../d` with `n` slashes. -/
def deep_chars : Nat → List Char
  | 0 => ['d']
  | n + 1 => 'd' :: '/' :: deep_chars n

/-- The path `d/d/.../d` of a directory nested `n` levels deep: `2 * n + 1` bytes. -/
def deep_path (n : Nat) : String := String.mk (deep_chars n)

/-- A directory path of 4093 bytes: with "/x" it fills the path buffer. -/
def long_root : String := deep_path 2046

/-- The directory `{x, xy}` of two files of one byte each. -/
def tree_x_xy : Node := dir_node [("x", file_node 1), ("xy", file_node 1)]

end Find

/-! # The `ls` command: the comparison function (ls_options.c) -/

namespace Ls

/-- Embedding of `ls_options_t` (ls_options.h 19-31); the `int` fields are
flags, set when not 0. -/
structure ls_options_t where
  show_all : Int
  long_format : Int
  human_readable : Int
  sort_by_time : Int
  show_size : Int
  reverse_sort : Int
  recursive : Int
  show_inode : Int
  group_by_ext : Int
  dirs_first : Int
  filter_ext : Option String
  deriving DecidableEq, Repr

/-- Embedding of `file_info_t` (ls_options.h 37-41). -/
structure file_info_t where
  name : String
  stat_info : Find.Stat
  path : String
  deriving DecidableEq, Repr

/-- The bytes of a C string. -/
def c_bytes : List Char → List Nat
  | [] => []
  | c :: rest => Find.utf8_bytes c ++ c_bytes rest

/-- The byte loop of `strcmp`: the difference of the first two bytes that
differ, the end of a string counting as 0. -/
def strcmp_bytes : List Nat → List Nat → Int
  | [], [] => 0
  | [], b :: _ => -(b : Int)
  | a :: _, [] => (a : Int)
  | a :: as, b :: bs => if a = b then strcmp_bytes as bs else (a : Int) - (b : Int)

/-- The C library function `strcmp`: the difference of the first two bytes
that differ, taken as `unsigned char`, the end of a string counting as 0 (the
C standard fixes the sign of the result only). -/
def strcmp (s1 s2 : List Char) : Int := strcmp_bytes (c_bytes s1) (c_bytes s2)

/-- Embedding of `get_file_extension` (ls_options.c 254-263): the text after
the last '.', or `none` (the `NULL` pointer) when the name has no '.' or its
last '.' is its first character. -/
def get_file_extension (filename : String) : Option (List Char) :=
  let after := (filename.data.reverse.takeWhile (fun c => c != '.')).reverse
  if after.length = filename.data.length then none
  else if after.length + 1 = filename.data.length then none
  else some after

/-- The second stage of `compare_files` (ls_options.c 101-119): the value it
returns, or `none` when control goes on to the third stage. -/
def compare_by_extension (file_a file_b : file_info_t) (options : ls_options_t) :
    Option Int :=
  if options.group_by_ext != 0 then
    match get_file_extension file_a.name, get_file_extension file_b.name with
    | some ext_a, some ext_b =>
      if strcmp ext_a ext_b != 0 then
        some (if options.reverse_sort != 0 then -(strcmp ext_a ext_b) else strcmp ext_a ext_b)
      else none
    | some _, none => some (if options.reverse_sort != 0 then -1 else 1)
    | none, some _ => some (if options.reverse_sort != 0 then 1 else -1)
    | none, none => none
  else none

/-- The third and fourth stage of `compare_files` (ls_options.c 122-142). -/
def compare_by_time_or_name (file_a file_b : file_info_t) (options : ls_options_t) : Int :=
  let result : Int :=
    if options.sort_by_time != 0 then
      let by_time : Int :=
        if file_a.stat_info.st_mtime < file_b.stat_info.st_mtime then -1
        else if file_a.stat_info.st_mtime > file_b.stat_info.st_mtime then 1
        else 0
      if by_time == 0 then strcmp file_a.name.data file_b.name.data else by_time
    else strcmp file_a.name.data file_b.name.data
  if options.reverse_sort != 0 then -result else result

/-- Embedding of `compare_files` (ls_options.c 84-143). -/
def compare_files (file_a file_b : file_info_t) (options : ls_options_t) : Int :=
  if options.dirs_first != 0 && Find.S_ISDIR file_a.stat_info.st_mode
      && !Find.S_ISDIR file_b.stat_info.st_mode then -1
  else if options.dirs_first != 0 && !Find.S_ISDIR file_a.stat_info.st_mode
      && Find.S_ISDIR file_b.stat_info.st_mode then 1
  else
    match compare_by_extension file_a file_b options with
    | some value => value
    | none => compare_by_time_or_name file_a file_b options

/-- The options with only `sort_by_time` set. -/
def time_only : ls_options_t :=
  { show_all := 0, long_format := 0, human_readable := 0, sort_by_time := 1, show_size := 0,
    reverse_sort := 0, recursive := 0, show_inode := 0, group_by_ext := 0, dirs_first := 0,
    filter_ext := none }

/-- A regular file with the given name and modification time. -/
def file_at (name : String) (mtime : Int) : file_info_t :=
  { name := name, stat_info := { Find.file_stat 1 with st_mtime := mtime }, path := name }

end Ls

/-! # The `cat` command: line output (cat.c, cat_options.c) -/

namespace Cat

/-- Embedding of `cat_options_t` (cat_options.h 23-28). -/
structure cat_options_t where
  number_all : Int
  number_nonblank : Int
  squeeze_blank : Int
  head_lines : Int
  deriving DecidableEq, Repr

/-- The loop of `is_blank_line` (cat_options.c 45-52) over the bytes of a line:
`while (*line)` ends at the first NUL byte as it does at the end. -/
def is_blank_chars : List Char → Int
  | [] => 1
  | c :: rest =>
    if c == '\x00' then 1
    else if c != ' ' && c != '\t' && c != '\n' && c != '\r' then 0
    else is_blank_chars rest

/-- Embedding of `is_blank_line` (cat_options.c 43-53) on the bytes that
`getline` delivered. -/
def is_blank_line (line : String) : Int := is_blank_chars line.data

/-- What `printf("%s", line)` writes: the bytes of the line before its first
NUL byte. -/
def c_string (line : String) : String :=
  String.mk (line.data.takeWhile (fun c => c != '\x00'))

/-- What `cat_file` writes: `printf("%6d\t", n)` is `number n`, and
`printf("%s", line)` is `text` with the bytes written. -/
inductive Written where
  | number (n : Int)
  | text (line : String)
  deriving DecidableEq, Repr

/-- The local variables of `cat_file` that live across iterations. -/
structure LoopState where
  line_num : Int
  output_line_num : Int
  prev_blank : Int
  lines_printed : Int
  deriving DecidableEq, Repr

/-- The `getline` loop of `cat_file` (cat.c 27-58) over the lines still to be
read, each with its line terminator and with the NUL bytes it may hold.
Counters are 32-bit `int`s. -/
def cat_file_loop (opts : cat_options_t) : List String → LoopState → List Written
  | [], _ => []
  | line :: rest, s =>
    if opts.head_lines > 0 && decide (s.lines_printed ≥ opts.head_lines) then []
    else if opts.squeeze_blank != 0 && is_blank_line line != 0 && s.prev_blank != 0 then
      cat_file_loop opts rest { s with line_num := Find.wrap_int (s.line_num + 1) }
    else if opts.number_nonblank != 0 && is_blank_line line == 0 then
      Written.number s.output_line_num :: Written.text (c_string line) ::
        cat_file_loop opts rest
          { line_num := Find.wrap_int (s.line_num + 1),
            output_line_num := Find.wrap_int (s.output_line_num + 1),
            prev_blank := is_blank_line line,
            lines_printed := Find.wrap_int (s.lines_printed + 1) }
    else if opts.number_all != 0 then
      Written.number s.line_num :: Written.text (c_string line) ::
        cat_file_loop opts rest
          { line_num := Find.wrap_int (s.line_num + 1),
            output_line_num := s.output_line_num,
            prev_blank := is_blank_line line,
            lines_printed := Find.wrap_int (s.lines_printed + 1) }
    else
      Written.text (c_string line) ::
        cat_file_loop opts rest
          { line_num := Find.wrap_int (s.line_num + 1),
            output_line_num := s.output_line_num,
            prev_blank := is_blank_line line,
            lines_printed := Find.wrap_int (s.lines_printed + 1) }

/-- Embedding of `cat_file` (cat.c 17-66) on the lines that `getline` delivers. -/
def cat_file (opts : cat_options_t) (lines : List String) : List Written :=
  cat_file_loop opts lines
    { line_num := 1, output_line_num := 1, prev_blank := 0, lines_printed := 0 }

/-- The lines written, without the line numbers. -/
def written_lines : List Written → List String
  | [] => []
  | Written.number _ :: rest => written_lines rest
  | Written.text line :: rest => line :: written_lines rest

/-- The line is blank as `is_blank_line` decides it. -/
def blank (line : String) : Bool := is_blank_line line != 0

/-- The input with every maximal run of consecutive blank lines reduced to its
first line: the input is split into runs of adjacent lines that are both
blank (a line that is not blank is a run of its own), and the first line of
each run is kept. -/
def squeezed (lines : List String) : List String :=
  (lines.splitBy (fun a b => blank a && blank b)).filterMap List.head?

/-- The lines of the input that are not the second or a later line of a run of
blank lines, given whether the line before the input was blank. -/
def kept_after : Bool → List String → List String
  | _, [] => []
  | previous_blank, line :: rest =>
    if blank line && previous_blank then kept_after true rest
    else line :: kept_after (blank line) rest

/-- The character is one of space, tab, CR, LF. -/
def is_blank_char (c : Char) : Prop := c = ' ' ∨ c = '\t' ∨ c = '\r' ∨ c = '\n'

/-- The line holds no NUL byte. -/
def is_text (line : String) : Prop := '\x00' ∉ line.data

instance (line : String) : Decidable (is_text line) := by
  unfold is_text; infer_instance

/-- The options with only `squeeze_blank` set. -/
def squeeze_only : cat_options_t :=
  { number_all := 0, number_nonblank := 0, squeeze_blank := 1, head_lines := 0 }

end Cat

namespace Find

/-! ## Lemmas on the C library model -/

theorem char_le_iff (a b : Char) : a ≤ b ↔ a.toNat ≤ b.toNat := Iff.rfl

theorem digit_of_eq_some {base : Nat} {c : Char} (h : is_digit base c) :
    digit_of base c = some (c.toNat - 48) :=
  if_pos h

theorem digit_of_eq_none {base : Nat} {c : Char} (h : ¬ is_digit base c) :
    digit_of base c = none :=
  if_neg h

theorem digits_value_cons (base : Nat) (c : Char) (cs : List Char) :
    digits_value base (c :: cs) = (c.toNat - 48) * base ^ cs.length + digits_value base cs := by
  simp [digits_value, Nat.ofDigits_append, Nat.mul_comm, Nat.add_comm]

theorem strtol_digits_append (base : Nat) (ds rest : List Char)
    (hds : ∀ c ∈ ds, is_digit base c) (hrest : ¬ is_digit base (char_at rest 0)) (acc : Nat) :
    strtol_digits base (ds ++ rest) acc = (acc * base ^ ds.length + digits_value base ds, rest) := by
  induction ds generalizing acc with
  | nil =>
    cases rest with
    | nil => simp [strtol_digits, digits_value]
    | cons r rs =>
      have : digit_of base r = none := digit_of_eq_none (by simpa [char_at] using hrest)
      simp [strtol_digits, digits_value, this]
  | cons c cs ih =>
    have hc : digit_of base c = some (c.toNat - 48) :=
      digit_of_eq_some (hds c (List.mem_cons_self _ _))
    have ih' := ih (fun x hx => hds x (List.mem_cons_of_mem _ hx)) (acc * base + (c.toNat - 48))
    show strtol_digits base (c :: (cs ++ rest)) acc = _
    rw [strtol_digits, hc]
    simp only []
    rw [ih', digits_value_cons, List.length_cons]
    congr 1
    ring

theorem is_digit_not_space {base : Nat} {c : Char} (h : is_digit base c) : isspace c = false := by
  obtain ⟨h0, _, _⟩ := h
  rw [char_le_iff] at h0
  have h48 : 48 ≤ c.toNat := h0
  simp only [isspace, Bool.or_eq_false_iff, beq_eq_false_iff_ne, ne_eq]
  refine ⟨⟨⟨⟨⟨?_, ?_⟩, ?_⟩, ?_⟩, ?_⟩, ?_⟩ <;> (rintro rfl; revert h48; decide)

theorem is_digit_not_sign {base : Nat} {c : Char} (h : is_digit base c) : c ≠ '+' ∧ c ≠ '-' := by
  obtain ⟨h0, _, _⟩ := h
  rw [char_le_iff] at h0
  have h48 : 48 ≤ c.toNat := h0
  constructor <;> (rintro rfl; revert h48; decide)

/-- On a non-empty run of digits followed by a non-digit, `strtol` returns the
value of the run (when it fits `long`) and leaves `endptr` at the non-digit. -/
theorem strtol_of_digits (base : Nat) (ds rest : List Char) (hne : ds ≠ [])
    (hds : ∀ c ∈ ds, is_digit base c) (hrest : ¬ is_digit base (char_at rest 0))
    (hv : (digits_value base ds : Int) ≤ LONG_MAX) :
    strtol (ds ++ rest) base = ((digits_value base ds : Int), rest) := by
  obtain ⟨c, cs, rfl⟩ := List.exists_cons_of_ne_nil hne
  have hc : is_digit base c := hds c (List.mem_cons_self _ _)
  have hsp := is_digit_not_space hc
  obtain ⟨hplus, hminus⟩ := is_digit_not_sign hc
  have hdig := strtol_digits_append base (c :: cs) rest hds hrest 0
  have hlo : LONG_MIN ≤ (digits_value base (c :: cs) : Int) := by
    have h0 : (0 : Int) ≤ (digits_value base (c :: cs) : Int) := Int.natCast_nonneg _
    have h1 : LONG_MIN ≤ 0 := by decide
    omega
  have hsign : (c == '-' || c == '+') = false := by simp [hplus, hminus]
  simp only [List.cons_append] at hdig
  simp only [strtol, List.cons_append, List.dropWhile_cons, hsp, char_at, List.getD_cons_zero,
    hsign, Bool.false_eq_true, if_false, digit_of_eq_some hc, hdig]
  simp [hv, hlo, hminus]

/-! ## Lemmas on the predicate evaluator -/

theorem matches_criteria_no_criteria (env : Env) (listing : Option (List String))
    (filename : String) (st : Stat) (opts : find_options_t) (h : no_criteria opts) :
    matches_criteria env listing filename st opts = true := by
  obtain ⟨h1, h2, h3, h4, h5, h6, h7, h8, h9⟩ := h
  simp [matches_criteria, h1, h2, h3, h4, h5, h6, h7, h8, h9]

theorem printed_paths_append (a b : List Output) :
    printed_paths (a ++ b) = printed_paths a ++ printed_paths b := by
  induction a with
  | nil => rfl
  | cons x xs ih =>
    cases x with
    | stdout line => simp [printed_paths, ih]
    | stderr path => simp [printed_paths, ih]

/-! ## Lemmas on the path buffer -/

theorem utf8_bytes_length (c : Char) : (utf8_bytes c).length = utf8_size c := by
  unfold utf8_bytes utf8_size
  split_ifs <;> rfl

theorem take_bytes_of_le (chars : List Char) :
    ∀ room, strlen chars ≤ room → take_bytes room chars = chars := by
  induction chars with
  | nil => intro room _; rfl
  | cons c rest ih =>
    intro room h
    simp only [strlen] at h
    have hc : utf8_size c ≤ room := by omega
    simp only [take_bytes, hc, if_true]
    rw [ih (room - utf8_size c) (by omega)]

theorem take_bytes_append (front back : List Char) :
    ∀ room, strlen front ≤ room →
      take_bytes room (front ++ back) = front ++ take_bytes (room - strlen front) back := by
  induction front with
  | nil => intro room _; simp [strlen]
  | cons c rest ih =>
    intro room h
    simp only [strlen] at h
    have hc : utf8_size c ≤ room := by omega
    have hsub : room - utf8_size c - strlen rest = room - (utf8_size c + strlen rest) := by
      omega
    rw [List.cons_append, take_bytes, if_pos hc, ih (room - utf8_size c) (by omega), strlen,
      hsub, List.cons_append]

theorem strlen_append (front back : List Char) :
    strlen (front ++ back) = strlen front + strlen back := by
  induction front with
  | nil => simp [strlen]
  | cons c rest ih => rw [List.cons_append, strlen, strlen, ih]; omega

theorem data_child_path (path d_name : String) :
    (path ++ "/" ++ d_name).data = path.data ++ '/' :: d_name.data := by
  simp [String.data_append]

/-- A path that fits the buffer is built as it is. -/
theorem snprintf_path_of_fits (path d_name : String)
    (h : strlen (path ++ "/" ++ d_name).data < PATH_MAX) :
    snprintf_path path d_name = path ++ "/" ++ d_name := by
  have hle : strlen (path ++ "/" ++ d_name).data ≤ PATH_MAX - 1 := by omega
  unfold snprintf_path
  rw [← data_child_path, take_bytes_of_le _ _ hle]

theorem strlen_deep_chars (n : Nat) : strlen (deep_chars n) = 2 * n + 1 := by
  induction n with
  | zero => decide
  | succ n ih =>
    have h1 : utf8_size 'd' = 1 := by decide
    have h2 : utf8_size '/' = 1 := by decide
    simp only [deep_chars, strlen, ih, h1, h2]
    omega

theorem strlen_long_root : strlen long_root.data = 4093 := strlen_deep_chars 2046

/-- A path whose parent fits the buffer is the parent followed by what is
left of `/d_name` in the room that remains. -/
theorem snprintf_path_cut (path d_name : String) (kept : List Char)
    (h : strlen path.data ≤ PATH_MAX - 1)
    (hk : take_bytes (PATH_MAX - 1 - strlen path.data) ('/' :: d_name.data) = kept) :
    snprintf_path path d_name = path ++ String.mk kept := by
  unfold snprintf_path
  rw [take_bytes_append _ _ _ h, hk]
  apply String.ext
  rw [String.data_append]

/-- The path built for `x` in `long_root` fills the buffer. -/
theorem snprintf_path_long_root_x : snprintf_path long_root "x" = long_root ++ "/x" :=
  snprintf_path_cut long_root "x" ['/', 'x'] (by rw [strlen_long_root]; decide)
    (by rw [strlen_long_root]; decide)

/-- The path built for `xy` in `long_root` is cut to the path of `x`. -/
theorem snprintf_path_long_root_xy : snprintf_path long_root "xy" = long_root ++ "/x" :=
  snprintf_path_cut long_root "xy" ['/', 'x'] (by rw [strlen_long_root]; decide)
    (by rw [strlen_long_root]; decide)

/-- C1 (the code departs from the claim): on the tree `root/{b/}` with no
criterion set, the walk prints the path `root/b` twice, once from the listing
loop of `root` and once at the start of its own recursive call, so the printed
output of one walk does repeat a path. -/
theorem find_recursive_prints_subdirectory_twice :
    printed_paths (find_recursive plain_env init_options "root" tree_root_b)
        = ["root", "root/b", "root/b"]
      ∧ ¬ (printed_paths (find_recursive plain_env init_options "root" tree_root_b)).Nodup := by
  decide


/-! ## C2: the evaluator is the conjunction of the set criteria -/

theorem size_block_fails_iff (size_spec : String) (st_size : Int) :
    size_block_fails size_spec st_size = false ↔ size_holds size_spec st_size := by
  unfold size_block_fails size_holds
  by_cases hneg : parse_size_spec (some size_spec) < 0
  · simp [hneg]
  · by_cases hp : char_at size_spec.data 0 = '+'
    · have hm : char_at size_spec.data 0 ≠ '-' := by rw [hp]; decide
      simp [hneg, hp]
      omega
    · by_cases hm : char_at size_spec.data 0 = '-'
      · simp [hneg, hm]
        omega
      · simp [hneg, hp, hm]
        omega

theorem mtime_block_fails_iff ( mtime_prefix : Char) (mtime_days d : Int) :
    mtime_block_fails mtime_prefix mtime_days d = false ↔ age_holds mtime_prefix mtime_days d := by
  unfold mtime_block_fails age_holds
  by_cases hp : mtime_prefix = '+'
  · subst hp
    simp
  · by_cases hm : mtime_prefix = '-'
    · subst hm
      simp
    · by_cases hz : mtime_prefix = '\x00'
      · subst hz
        simp
      · simp [hp, hm, hz]

theorem matches_criteria_eq_true_iff (env : Env) (listing : Option (List String))
    (filename : String) (st : Stat) (opts : find_options_t) :
    matches_criteria env listing filename st opts = true ↔
      ((opts.type_file && !S_ISREG st.st_mode) = false ∧
       (opts.type_dir && !S_ISDIR st.st_mode) = false ∧
       opts.name_pattern.any (fun pattern => env.fnmatch pattern filename 0 != 0) = false ∧
       opts.iname_pattern.any
         (fun pattern => env.fnmatch pattern filename FNM_CASEFOLD != 0) = false ∧
       opts.size_spec.any (fun size_spec => size_block_fails size_spec st.st_size) = false ∧
       opts.user_name.any (fun user_name =>
         get_uid_by_name env user_name == UID_NONE
           || st.st_uid != get_uid_by_name env user_name) = false ∧
       opts.perm_spec.any (fun perm_spec =>
         st.st_mode &&& 0o777 != parse_perm_spec (some perm_spec)) = false ∧
       (opts.mtime_set
         && mtime_block_fails opts.mtime_prefix opts.mtime_days
             (days_diff env.now st.st_mtime)) = false ∧
       (opts.empty_filter && !is_empty listing st) = false) := by
  unfold matches_criteria
  split_ifs with h1 h2 h3 h4 h5 h6 h7 h8 h9 <;>
    simp only [Bool.not_eq_true] at * <;> simp [*]

theorem option_any_eq_false {α : Type} (o : Option α) (f : α → Bool) :
    o.any f = false ↔ ∀ a, o = some a → f a = false := by
  cases o <;> simp

theorem matches_criteria_iff (env : Env) (listing : Option (List String)) (filename : String)
    (st : Stat) (opts : find_options_t) :
    matches_criteria env listing filename st opts = true
      ↔ criteria_hold env listing filename st opts := by
  rw [matches_criteria_eq_true_iff]
  unfold criteria_hold
  refine and_congr ?_ (and_congr ?_ (and_congr ?_ (and_congr ?_ (and_congr ?_
    (and_congr ?_ (and_congr ?_ (and_congr ?_ ?_)))))))
  · cases opts.type_file <;> simp
  · cases opts.type_dir <;> simp
  · rw [option_any_eq_false]
    simp
  · rw [option_any_eq_false]
    simp
  · rw [option_any_eq_false]
    simp only [size_block_fails_iff]
  · rw [option_any_eq_false]
    refine forall_congr' fun u => imp_congr_right fun _ => ?_
    unfold owner_holds
    simp
  · rw [option_any_eq_false]
    refine forall_congr' fun p => imp_congr_right fun _ => ?_
    unfold perm_holds
    simp
  · cases opts.mtime_set
    · simp
    · simp only [Bool.true_and, mtime_block_fails_iff, true_implies]
  · cases opts.empty_filter <;> simp

/-- C2: `matches_criteria` returns true exactly when every criterion that is set
(type_file, type_dir, name_pattern, iname_pattern, size_spec, user_name,
perm_spec, mtime, empty_filter) holds for the entry on its own; and criteria
obtained by unsetting some of them still match whatever matched before. -/
theorem matches_criteria_conjunction_of_set_criteria (env : Env)
    (listing : Option (List String)) (filename : String) (st : Stat) (opts : find_options_t) :
    (matches_criteria env listing filename st opts = true
        ↔ criteria_hold env listing filename st opts)
      ∧ ∀ weaker : find_options_t, unset_of weaker opts →
          matches_criteria env listing filename st opts = true →
          matches_criteria env listing filename st weaker = true := by
  refine ⟨matches_criteria_iff env listing filename st opts, ?_⟩
  intro weaker hw hm
  rw [matches_criteria_iff] at hm ⊢
  obtain ⟨w1, w2, w3, w4, w5, w6, w7, w8, w9⟩ := hw
  obtain ⟨m1, m2, m3, m4, m5, m6, m7, m8, m9⟩ := hm
  refine ⟨fun h => m1 (w1 h), fun h => m2 (w2 h), fun p h => m3 p (w3 p h),
    fun p h => m4 p (w4 p h), fun p h => m5 p (w5 p h), fun p h => m6 p (w6 p h),
    fun p h => m7 p (w7 p h), ?_, fun h => m9 (w9 h)⟩
  intro h
  obtain ⟨hset, hpre, hdays⟩ := w8 h
  have := m8 hset
  rw [hpre, hdays] at this
  exact this


/-! ## C3: with no criterion the walk reports every entry -/

theorem mem_printed_paths_cons_stdout (p line : String) (rest : List Output) :
    p ∈ printed_paths (Output.stdout line :: rest) ↔ p = line ∨ p ∈ printed_paths rest := by
  simp [printed_paths]

theorem self_mem_entries (path : String) (n : Node) : path ∈ entries path n := by
  rcases n with ⟨_ | l, s, _ | d⟩ <;> simp [entries]

mutual
theorem find_recursive_mem_iff (env : Env) (opts : find_options_t) (hopts : no_criteria opts)
    (path : String) : (n : Node) → all_succeed n → root_resolved n → paths_fit path n →
      ∀ p, p ∈ printed_paths (find_recursive env opts path n) ↔ p ∈ entries path n
  | .mk lstat stat dir, hall, hroot, hfit, p => by
    obtain ⟨s, l, hs, hl, hsl⟩ := hroot
    simp only [Node.stat, Node.lstat] at hs hl
    subst hs hl
    have hm := matches_criteria_no_criteria env
    by_cases hdir : S_ISDIR s.st_mode = true
    · have hldir := hsl hdir
      cases dir with
      | none => simp [all_succeed, hldir] at hall
      | some children =>
        simp only [all_succeed, hldir, hdir, true_implies, and_self, true_and] at hall
        simp only [paths_fit] at hfit
        have ih := find_recursive_loop_mem_iff env opts hopts path children hall hfit p
        simp [find_recursive, entries, hdir, hldir, hm _ _ _ _ hopts,
          printed_paths_append, printed_paths, ih]
    · have hldir : ¬ S_ISDIR l.st_mode = true := by
        intro h
        cases dir <;> simp [all_succeed, h, hdir] at hall
      cases dir <;>
        simp [find_recursive, entries, hdir, hldir, hm _ _ _ _ hopts, printed_paths]
theorem find_recursive_loop_mem_iff (env : Env) (opts : find_options_t)
    (hopts : no_criteria opts) (path : String) :
    (children : List (String × Node)) → all_succeed_below children →
      paths_fit_below path children →
      ∀ p, p ∈ printed_paths (find_recursive_loop env opts path children)
        ↔ p ∈ entries_below path children
  | [], _, _, p => by simp [find_recursive_loop, entries_below, printed_paths]
  | (d_name, child) :: rest, hall, hfit, p => by
    simp only [all_succeed_below] at hall
    obtain ⟨hchild, hrest⟩ := hall
    simp only [paths_fit_below] at hfit
    obtain ⟨hfitchild, hfitrest⟩ := hfit
    have ihrest := find_recursive_loop_mem_iff env opts hopts path rest hrest hfitrest p
    have hm := matches_criteria_no_criteria env
    by_cases hdots : d_name = "." ∨ d_name = ".."
    · have hb : (d_name == "." || d_name == "..") = true := by simpa using hdots
      simp only [find_recursive_loop, entries_below, hb, hdots, if_true, ihrest]
    · have hb : (d_name == "." || d_name == "..") = false := by simpa using hdots
      have hc : all_succeed child := by
        rcases hchild with h | h | h
        · exact absurd (Or.inl h) hdots
        · exact absurd (Or.inr h) hdots
        · exact h
      have hfc : strlen (path ++ "/" ++ d_name).data < PATH_MAX ∧
          paths_fit (path ++ "/" ++ d_name) child := by
        rcases hfitchild with h | h | h
        · exact absurd (Or.inl h) hdots
        · exact absurd (Or.inr h) hdots
        · exact h
      have hsn := snprintf_path_of_fits path d_name hfc.1
      rcases child with ⟨_ | l, s, d⟩
      · simp [all_succeed] at hc
      · by_cases hldir : S_ISDIR l.st_mode = true
        · have hres : root_resolved (Node.mk (some l) s d) := by
            rcases s with _ | s
            · cases d <;> simp [all_succeed, hldir] at hc
            · exact ⟨s, l, rfl, rfl, fun _ => hldir⟩
          have ih := find_recursive_mem_iff env opts hopts (path ++ "/" ++ d_name)
            (Node.mk (some l) s d) hc hres hfc.2 p
          have hself := self_mem_entries (path ++ "/" ++ d_name) (Node.mk (some l) s d)
          have hloop : find_recursive_loop env opts path ((d_name, Node.mk (some l) s d) :: rest)
              = Output.stdout (path ++ "/" ++ d_name)
                  :: (find_recursive env opts (path ++ "/" ++ d_name) (Node.mk (some l) s d)
                      ++ find_recursive_loop env opts path rest) := by
            simp [find_recursive_loop, hb, Node.lstat, hm _ _ _ _ hopts, hldir, hsn]
          have hbelow : entries_below path ((d_name, Node.mk (some l) s d) :: rest)
              = entries (path ++ "/" ++ d_name) (Node.mk (some l) s d)
                  ++ entries_below path rest := by
            simp [entries_below, hdots]
          rw [hloop, hbelow, mem_printed_paths_cons_stdout, printed_paths_append,
            List.mem_append, List.mem_append, ih, ihrest]
          constructor
          · rintro (h | h | h)
            · exact Or.inl (h ▸ hself)
            · exact Or.inl h
            · exact Or.inr h
          · rintro (h | h)
            · exact Or.inr (Or.inl h)
            · exact Or.inr (Or.inr h)
        · have hent : entries (path ++ "/" ++ d_name) (Node.mk (some l) s d)
              = [path ++ "/" ++ d_name] := by
            cases d <;> simp [entries, hldir]
          simp [find_recursive_loop, entries_below, hb, hdots, Node.lstat,
            hm _ _ _ _ hopts, hldir, printed_paths_append, ihrest, printed_paths, hent, hsn]
end

theorem no_criteria_init_options : no_criteria init_options := by
  simp [no_criteria, init_options]

theorem paths_fit_tree_a_b_c : paths_fit "root" tree_a_b_c := by
  simp only [tree_a_b_c, dir_node, file_node, paths_fit, paths_fit_below, true_or, or_true,
    true_and, and_true]
  decide

theorem long_root_child_ne (a b : List Char) (h : a ≠ b) :
    long_root ++ String.mk a ≠ long_root ++ String.mk b := by
  intro heq
  have hdata := congrArg String.data heq
  rw [String.data_append, String.data_append] at hdata
  exact h (List.append_cancel_left hdata)

/-- The walk of `long_root/{x, xy}` with no criterion set prints the root and
the path of `x` twice: the path built for `xy` is cut to that of `x`. -/
theorem find_recursive_long_root (env : Env) :
    find_recursive env init_options long_root tree_x_xy
      = [Output.stdout long_root, Output.stdout (long_root ++ "/x"),
          Output.stdout (long_root ++ "/x")] := by
  have hm := fun listing filename st =>
    matches_criteria_no_criteria env listing filename st init_options no_criteria_init_options
  have hd : S_ISDIR dir_stat.st_mode = true := by decide
  have hf : ∀ size : Int, S_ISDIR (file_stat size).st_mode = false := fun _ => by
    show S_ISDIR 0o100644 = false
    decide
  simp [tree_x_xy, dir_node, file_node, pseudo_entry, find_recursive, find_recursive_loop,
    hm, Node.lstat, Node.listing, Node.dir, hd, hf, snprintf_path_long_root_x,
    snprintf_path_long_root_xy]

theorem matches_criteria_size_only (env : Env) (listing : Option (List String))
    (filename : String) (st : Stat) (size_spec : String) :
    matches_criteria env listing filename st { init_options with size_spec := some size_spec }
        = true
      ↔ size_holds size_spec st.st_size := by
  rw [matches_criteria_iff]
  simp [criteria_hold, init_options]

/-- C4: with only the size criterion set and a parsed magnitude `n ≥ 0`, the
entry of size `s` matches iff `s > n` when the specification starts with '+',
iff `s < n` when it starts with '-', and iff `s = n` otherwise; "+100" passes
for size 150 and fails for size 100, "-100" passes for size 50 and fails for
size 100. -/
theorem size_criterion_compares_by_sign (env : Env) (listing : Option (List String))
    (filename : String) :
    (∀ (st : Stat) (size_spec : String), 0 ≤ parse_size_spec (some size_spec) →
      (char_at size_spec.data 0 = '+' →
        (matches_criteria env listing filename st
            { init_options with size_spec := some size_spec } = true
          ↔ st.st_size > parse_size_spec (some size_spec))) ∧
      (char_at size_spec.data 0 = '-' →
        (matches_criteria env listing filename st
            { init_options with size_spec := some size_spec } = true
          ↔ st.st_size < parse_size_spec (some size_spec))) ∧
      (char_at size_spec.data 0 ≠ '+' → char_at size_spec.data 0 ≠ '-' →
        (matches_criteria env listing filename st
            { init_options with size_spec := some size_spec } = true
          ↔ st.st_size = parse_size_spec (some size_spec)))) ∧
    (∀ st150 st100 st50 : Stat, st150.st_size = 150 → st100.st_size = 100 →
      st50.st_size = 50 →
      matches_criteria env listing filename st150
          { init_options with size_spec := some "+100" } = true ∧
      matches_criteria env listing filename st100
          { init_options with size_spec := some "+100" } = false ∧
      matches_criteria env listing filename st50
          { init_options with size_spec := some "-100" } = true ∧
      matches_criteria env listing filename st100
          { init_options with size_spec := some "-100" } = false) := by
  refine ⟨fun st size_spec hn => ⟨?_, ?_, ?_⟩, ?_⟩
  · intro hp
    have hm : char_at size_spec.data 0 ≠ '-' := by rw [hp]; decide
    rw [matches_criteria_size_only]
    simp [size_holds, hn, hp]
  · intro hm
    have hp : char_at size_spec.data 0 ≠ '+' := by rw [hm]; decide
    rw [matches_criteria_size_only]
    simp [size_holds, hn, hm]
  · intro hp hm
    rw [matches_criteria_size_only]
    simp [size_holds, hn, hp, hm]
  · intro st150 st100 st50 h150 h100 h50
    have e1 : parse_size_spec (some "+100") = 100 := by decide
    have e2 : parse_size_spec (some "-100") = 100 := by decide
    have c1 : char_at "+100".data 0 = '+' := by decide
    have c2 : char_at "-100".data 0 = '-' := by decide
    refine ⟨?_, ?_, ?_, ?_⟩
    · rw [matches_criteria_size_only]
      simp [size_holds, e1, c1, h150]
    · rw [← Bool.not_eq_true, matches_criteria_size_only]
      simp [size_holds, e1, c1, h100]
    · rw [matches_criteria_size_only]
      simp [size_holds, e2, c2, h50]
    · rw [← Bool.not_eq_true, matches_criteria_size_only]
      simp [size_holds, e2, c2, h100]

/-- C4 at the specification "+1k" and a file of 2000 bytes: the magnitude is
1024 and the file matches. -/
theorem size_criterion_compares_by_sign_witness :
    0 ≤ parse_size_spec (some "+1k") ∧ parse_size_spec (some "+1k") = 1024 ∧
      matches_criteria plain_env none "f" (file_stat 2000)
        { init_options with size_spec := some "+1k" } = true :=
  ⟨by decide, by decide,
    (((size_criterion_compares_by_sign plain_env none "f").1 (file_stat 2000) "+1k"
        (by decide)).1 (by decide)).2 (by decide)⟩


/-! ## C5: the age criterion of option -t -/

theorem wrap_int_of_range (x : Int) (h0 : 0 ≤ x) (h1 : x ≤ INT_MAX) : wrap_int x = x := by
  unfold wrap_int
  unfold INT_MAX at h1
  norm_num at h1 ⊢
  omega

theorem atoi_of_digits (ds : List Char) (hne : ds ≠ []) (hds : ∀ c ∈ ds, is_digit 10 c)
    (hn : (digits_value 10 ds : Int) ≤ INT_MAX) : atoi ds = (digits_value 10 ds : Int) := by
  have hlong : (digits_value 10 ds : Int) ≤ LONG_MAX := by
    have : INT_MAX ≤ LONG_MAX := by decide
    omega
  have h := strtol_of_digits 10 ds [] hne hds (by decide) hlong
  rw [List.append_nil] at h
  rw [atoi, h]
  exact wrap_int_of_range _ (Int.natCast_nonneg _) hn

theorem parse_options_t (prog time_arg : String) :
    parse_options [prog, "-t", time_arg] init_options = (0, set_mtime init_options time_arg) := by
  rfl

theorem matches_criteria_mtime_only (env : Env) (listing : Option (List String))
    (filename : String) (st : Stat) (pre : Char) (days : Int) :
    matches_criteria env listing filename st
        { init_options with mtime_prefix := pre, mtime_days := days, mtime_set := true } = true
      ↔ age_holds pre days (days_diff env.now st.st_mtime) := by
  rw [matches_criteria_iff]
  simp [criteria_hold, init_options]

theorem set_mtime_plus (ds : List Char) :
    set_mtime init_options (String.mk ('+' :: ds))
      = { init_options with mtime_prefix := '+', mtime_days := atoi ds, mtime_set := true } := by
  rfl

theorem set_mtime_minus (ds : List Char) :
    set_mtime init_options (String.mk ('-' :: ds))
      = { init_options with mtime_prefix := '-', mtime_days := atoi ds, mtime_set := true } := by
  rfl

theorem set_mtime_plain (ds : List Char) (hne : ds ≠ []) (hds : ∀ c ∈ ds, is_digit 10 c) :
    set_mtime init_options (String.mk ds)
      = { init_options with mtime_prefix := '\x00', mtime_days := atoi ds,
                            mtime_set := true } := by
  obtain ⟨c, cs, rfl⟩ := List.exists_cons_of_ne_nil hne
  obtain ⟨hp, hm⟩ := is_digit_not_sign (hds c (List.mem_cons_self _ _))
  simp [set_mtime, char_at, hp, hm]

/-- C5: for an age argument `[+|-]<n>` of option -t (with `n` a non-empty run of
decimal digits whose value fits `int`), `parse_options` succeeds and the
criteria it builds match an entry aged `d` days iff `d = n` for no sign, iff
`d > n` for '+', and iff `d < n` for '-'; an entry aged exactly 5 days matches
"5" and matches neither "+5" nor "-5". -/
theorem age_criterion_of_option_t (prog : String) (env : Env)
    (listing : Option (List String)) (filename : String) (st : Stat) :
    (∀ ds : List Char, ds ≠ [] → (∀ c ∈ ds, is_digit 10 c) →
      (digits_value 10 ds : Int) ≤ INT_MAX →
      ((parse_options [prog, "-t", String.mk ds] init_options).1 = 0 ∧
        (matches_criteria env listing filename st
            (parse_options [prog, "-t", String.mk ds] init_options).2 = true
          ↔ days_diff env.now st.st_mtime = (digits_value 10 ds : Int))) ∧
      ((parse_options [prog, "-t", String.mk ('+' :: ds)] init_options).1 = 0 ∧
        (matches_criteria env listing filename st
            (parse_options [prog, "-t", String.mk ('+' :: ds)] init_options).2 = true
          ↔ days_diff env.now st.st_mtime > (digits_value 10 ds : Int))) ∧
      ((parse_options [prog, "-t", String.mk ('-' :: ds)] init_options).1 = 0 ∧
        (matches_criteria env listing filename st
            (parse_options [prog, "-t", String.mk ('-' :: ds)] init_options).2 = true
          ↔ days_diff env.now st.st_mtime < (digits_value 10 ds : Int)))) ∧
    (days_diff env.now st.st_mtime = 5 →
      matches_criteria env listing filename st
          (parse_options [prog, "-t", "5"] init_options).2 = true ∧
      matches_criteria env listing filename st
          (parse_options [prog, "-t", "+5"] init_options).2 = false ∧
      matches_criteria env listing filename st
          (parse_options [prog, "-t", "-5"] init_options).2 = false) := by
  have hgen : ∀ ds : List Char, ds ≠ [] → (∀ c ∈ ds, is_digit 10 c) →
      (digits_value 10 ds : Int) ≤ INT_MAX →
      ((parse_options [prog, "-t", String.mk ds] init_options).1 = 0 ∧
        (matches_criteria env listing filename st
            (parse_options [prog, "-t", String.mk ds] init_options).2 = true
          ↔ days_diff env.now st.st_mtime = (digits_value 10 ds : Int))) ∧
      ((parse_options [prog, "-t", String.mk ('+' :: ds)] init_options).1 = 0 ∧
        (matches_criteria env listing filename st
            (parse_options [prog, "-t", String.mk ('+' :: ds)] init_options).2 = true
          ↔ days_diff env.now st.st_mtime > (digits_value 10 ds : Int))) ∧
      ((parse_options [prog, "-t", String.mk ('-' :: ds)] init_options).1 = 0 ∧
        (matches_criteria env listing filename st
            (parse_options [prog, "-t", String.mk ('-' :: ds)] init_options).2 = true
          ↔ days_diff env.now st.st_mtime < (digits_value 10 ds : Int))) := by
    intro ds hne hds hn
    have hatoi := atoi_of_digits ds hne hds hn
    refine ⟨⟨by rw [parse_options_t], ?_⟩, ⟨by rw [parse_options_t], ?_⟩,
      ⟨by rw [parse_options_t], ?_⟩⟩
    · rw [parse_options_t]
      show matches_criteria env listing filename st (set_mtime init_options (String.mk ds)) = true
        ↔ _
      rw [set_mtime_plain ds hne hds, matches_criteria_mtime_only, hatoi]
      simp [age_holds]
    · rw [parse_options_t]
      show matches_criteria env listing filename st
        (set_mtime init_options (String.mk ('+' :: ds))) = true ↔ _
      rw [set_mtime_plus, matches_criteria_mtime_only, hatoi]
      simp [age_holds]
    · rw [parse_options_t]
      show matches_criteria env listing filename st
        (set_mtime init_options (String.mk ('-' :: ds))) = true ↔ _
      rw [set_mtime_minus, matches_criteria_mtime_only, hatoi]
      simp [age_holds]
  refine ⟨hgen, ?_⟩
  intro h5
  have hfive := hgen ['5'] (by decide) (by decide) (by decide)
  have hv : ((digits_value 10 ['5'] : Nat) : Int) = 5 := by decide
  rw [hv] at hfive
  obtain ⟨⟨_, e⟩, ⟨_, p⟩, ⟨_, m⟩⟩ := hfive
  refine ⟨e.2 h5, ?_, ?_⟩
  · rw [← Bool.not_eq_true]
    intro h
    have := p.1 h
    omega
  · rw [← Bool.not_eq_true]
    intro h
    have := m.1 h
    omega

/-- C5 at the argument "+7" and a file modified ten days before the clock
reading: the command line parses and the file matches. -/
theorem age_criterion_of_option_t_witness :
    (parse_options ["find", "-t", "+7"] init_options).1 = 0 ∧
      days_diff 864000 0 = 10 ∧
      matches_criteria { plain_env with now := 864000 } none "f" (file_stat 1)
        (parse_options ["find", "-t", "+7"] init_options).2 = true :=
  ⟨by decide, by decide,
    ((age_criterion_of_option_t "find" { plain_env with now := 864000 } none "f"
        (file_stat 1)).1 ['7'] (by decide) (by decide) (by decide)).2.1.2.2 (by decide)⟩


/-! ## C6: the age in days -/

theorem floor_age_eq_ediv (now mtime : Int) : floor_age now mtime = (now - mtime) / 86400 := by
  unfold floor_age
  have h : (86400 : ℚ) = ((86400 : ℕ) : ℚ) := by norm_num
  rw [h, Rat.floor_intCast_div_natCast]
  rfl

theorem tdiv_86400 (x : Int) :
    Int.tdiv x 86400 = if 0 ≤ x then x / 86400 else -((-x) / 86400) := by
  split_ifs with h
  · exact Int.tdiv_eq_ediv h (by decide)
  · have hx : 0 ≤ -x := by omega
    have := Int.tdiv_eq_ediv hx (show (0 : Int) ≤ 86400 by decide)
    rw [Int.neg_tdiv] at this
    omega

theorem wrap_long_of_range (x : Int) (h0 : LONG_MIN ≤ x) (h1 : x ≤ LONG_MAX) :
    wrap_long x = x := by
  unfold wrap_long
  unfold LONG_MIN at h0
  unfold LONG_MAX at h1
  norm_num at h0 h1 ⊢
  omega

theorem wrap_int_of_signed_range (x : Int) (h0 : -(2 ^ 31) ≤ x) (h1 : x < 2 ^ 31) :
    wrap_int x = x := by
  unfold wrap_int
  norm_num at h0 h1 ⊢
  omega

theorem days_diff_eq_tdiv (now mtime : Int) (hlo : -(86400 * 2 ^ 31) < now - mtime)
    (hhi : now - mtime < 86400 * 2 ^ 31) :
    days_diff now mtime = Int.tdiv (now - mtime) 86400 := by
  norm_num at hlo hhi
  have hw : wrap_long (now - mtime) = now - mtime := by
    apply wrap_long_of_range
    · unfold LONG_MIN
      norm_num
      omega
    · unfold LONG_MAX
      norm_num
      omega
  unfold days_diff
  rw [hw]
  show wrap_int (Int.tdiv (now - mtime) 86400) = _
  apply wrap_int_of_signed_range
  · rw [tdiv_86400]
    split_ifs <;> norm_num <;> omega
  · rw [tdiv_86400]
    split_ifs <;> norm_num <;> omega

/-- C6 (the claim fails for a modification time later than the clock): with
the clock at 1700000000 and a modification time one second later, the
evaluator computes the age 0 while the floor of -1/86400 is -1. -/
theorem days_diff_future_mtime_not_floor :
    days_diff 1700000000 1700000001 = 0 ∧ floor_age 1700000000 1700000001 = -1 ∧
      days_diff 1700000000 1700000001 ≠ floor_age 1700000000 1700000001 := by
  have h : floor_age 1700000000 1700000001 = -1 := by
    rw [floor_age_eq_ediv]
    decide
  refine ⟨by decide, h, ?_⟩
  rw [h]
  decide

/-- C6 as amended: for a clock reading and a modification time less than
2^31 days apart, the age the evaluator compares is the quotient of the
elapsed seconds by 86400 rounded toward zero; it is the floor when the
modification time is not later than the clock, and minus the floor of the
seconds ahead when it is later. -/
theorem days_diff_rounds_toward_zero (now mtime : Int)
    (hlo : -(86400 * 2 ^ 31) < now - mtime) (hhi : now - mtime < 86400 * 2 ^ 31) :
    days_diff now mtime = Int.tdiv (now - mtime) 86400 ∧
      (mtime ≤ now → days_diff now mtime = floor_age now mtime) ∧
      (now < mtime → days_diff now mtime = -floor_age mtime now) := by
  have h := days_diff_eq_tdiv now mtime hlo hhi
  refine ⟨h, ?_, ?_⟩
  · intro hle
    rw [h, floor_age_eq_ediv, tdiv_86400, if_pos (by omega)]
  · intro hlt
    rw [h, floor_age_eq_ediv, tdiv_86400, if_neg (by omega)]
    have : -(now - mtime) = mtime - now := by ring
    rw [this]

/-- C6 as amended, at a clock reading of 432000 and a modification time of 0:
the bounds hold and the age is 5 days, which is also the floor. -/
theorem days_diff_rounds_toward_zero_witness :
    (-(86400 * 2 ^ 31) < (432000 : Int) - 0 ∧ (432000 : Int) - 0 < 86400 * 2 ^ 31) ∧
      days_diff 432000 0 = 5 ∧
      days_diff 432000 0 = Int.tdiv (432000 - 0) 86400 ∧
      days_diff 432000 0 = floor_age 432000 0 :=
  ⟨⟨by decide, by decide⟩, by decide,
    (days_diff_rounds_toward_zero 432000 0 (by decide) (by decide)).1,
    (days_diff_rounds_toward_zero 432000 0 (by decide) (by decide)).2.1 (by decide)⟩


/-! ## C7: emptiness -/

theorem is_empty_count_eq_zero_iff (names : List String) :
    is_empty_count names = 0 ↔ ∀ n ∈ names, n = "." ∨ n = ".." := by
  induction names with
  | nil => simp [is_empty_count]
  | cons d_name rest ih =>
    by_cases h : d_name ≠ "." ∧ d_name ≠ ".."
    · simp only [is_empty_count, if_pos h, List.mem_cons, forall_eq_or_imp]
      constructor
      · intro h1
        exact absurd h1 (by decide)
      · rintro ⟨h1 | h1, _⟩
        · exact absurd h1 h.1
        · exact absurd h1 h.2
    · simp only [is_empty_count, if_neg h, ih, List.mem_cons, forall_eq_or_imp]
      have : d_name = "." ∨ d_name = ".." := by
        by_contra hc
        exact h ⟨fun e => hc (Or.inl e), fun e => hc (Or.inr e)⟩
      simp [this]

theorem not_reg_and_dir (m : Nat) : ¬ (S_ISREG m = true ∧ S_ISDIR m = true) := by
  rintro ⟨h1, h2⟩
  simp only [S_ISREG, S_ISDIR, beq_iff_eq] at h1 h2
  rw [h1] at h2
  exact absurd h2 (by decide)

/-- C7: `is_empty` returns true iff the entry is a regular file of size 0, or a
directory that opens and whose listing has no name other than "." and "..";
it returns false for every entry that is neither a regular file nor a
directory; and a directory whose listing has one more name (such as a
zero-byte file) is not empty. -/
theorem is_empty_iff (listing : Option (List String)) (st : Stat) :
    (is_empty listing st = true ↔
      (S_ISREG st.st_mode = true ∧ st.st_size = 0) ∨
      (S_ISDIR st.st_mode = true ∧
        ∃ names, listing = some names ∧ ∀ n ∈ names, n = "." ∨ n = "..")) ∧
    (S_ISREG st.st_mode = false → S_ISDIR st.st_mode = false →
      is_empty listing st = false) ∧
    (∀ child : String, child ≠ "." → child ≠ ".." → S_ISDIR st.st_mode = true →
      is_empty (some [".", "..", child]) st = false) := by
  refine ⟨?_, ?_, ?_⟩
  · by_cases hreg : S_ISREG st.st_mode = true
    · have hdir : ¬ S_ISDIR st.st_mode = true := fun h => not_reg_and_dir _ ⟨hreg, h⟩
      simp [is_empty, hreg, hdir]
    · by_cases hdir : S_ISDIR st.st_mode = true
      · cases listing with
        | none => simp [is_empty, hreg, hdir]
        | some names => simp [is_empty, hreg, hdir, is_empty_count_eq_zero_iff]
      · simp [is_empty, hreg, hdir]
  · intro hreg hdir
    simp [is_empty, hreg, hdir]
  · intro child h1 h2 hdir
    have hreg : ¬ S_ISREG st.st_mode = true := fun h => not_reg_and_dir _ ⟨h, hdir⟩
    simp [is_empty, hreg, hdir, is_empty_count, h1, h2]

/-- C7 at concrete entries: an empty directory is empty, a directory holding
the one file "f" is not, a zero-byte file is empty and a ten-byte file is not. -/
theorem is_empty_iff_witness :
    is_empty (some [".", ".."]) dir_stat = true ∧
      is_empty (some [".", "..", "f"]) dir_stat = false ∧
      is_empty none (file_stat 0) = true ∧ is_empty none (file_stat 10) = false :=
  ⟨by decide,
    (is_empty_iff none dir_stat).2.2 "f" (by decide) (by decide) (by decide),
    by decide, by decide⟩


/-! ## C8 and C9: permission specifications -/

theorem to_mode_t_natCast (v : Nat) : to_mode_t (v : Int) = v % 2 ^ 32 := by
  unfold to_mode_t
  have h : ((v : Int) % 2 ^ 32) = ((v % 2 ^ 32 : Nat) : Int) := by
    norm_num
  rw [h, Int.toNat_ofNat]

/-- On a non-empty string of octal digits whose value fits `long`,
`parse_perm_spec` is that value reduced to 32 bits. -/
theorem parse_perm_spec_of_digits (ds : List Char) (hne : ds ≠ [])
    (hds : ∀ c ∈ ds, is_digit 8 c) (hv : (digits_value 8 ds : Int) ≤ LONG_MAX) :
    parse_perm_spec (some (String.mk ds)) = digits_value 8 ds % 2 ^ 32 := by
  have h := strtol_of_digits 8 ds [] hne hds (by decide) hv
  rw [List.append_nil] at h
  show to_mode_t (strtol ds 8).1 = _
  rw [h, to_mode_t_natCast]

theorem digits_value_three (base : Nat) (a b c : Char) :
    digits_value base [a, b, c]
      = (a.toNat - 48) * base ^ 2 + (b.toNat - 48) * base + (c.toNat - 48) := by
  simp only [digits_value, List.reverse_cons, List.reverse_nil, List.nil_append,
    List.cons_append, List.map_cons, List.map_nil, Nat.ofDigits_cons, Nat.ofDigits_nil]
  ring

theorem matches_criteria_perm_only (env : Env) (listing : Option (List String))
    (filename : String) (st : Stat) (perm_spec : String) :
    matches_criteria env listing filename st { init_options with perm_spec := some perm_spec }
        = true
      ↔ perm_holds perm_spec st.st_mode := by
  rw [matches_criteria_iff]
  simp [criteria_hold, init_options]

/-- C8: for a permission specification of three octal digits and with only
the permission criterion set, an entry of mode `m` matches iff `m & 0777` is
the octal value of the specification; entries whose modes agree on those 9
bits are treated alike, whatever their file-type, setuid, setgid and sticky
bits. -/
theorem perm_criterion_three_octal_digits (env : Env) (listing : Option (List String))
    (filename : String) (st : Stat) (a b c : Char)
    (ha : is_digit 8 a) (hb : is_digit 8 b) (hc : is_digit 8 c) :
    (matches_criteria env listing filename st
        { init_options with perm_spec := some (String.mk [a, b, c]) } = true
      ↔ st.st_mode &&& 0o777 = digits_value 8 [a, b, c]) ∧
    digits_value 8 [a, b, c] = (a.toNat - 48) * 64 + (b.toNat - 48) * 8 + (c.toNat - 48) ∧
    (∀ other : Stat, other.st_mode &&& 0o777 = st.st_mode &&& 0o777 →
      matches_criteria env listing filename other
          { init_options with perm_spec := some (String.mk [a, b, c]) }
        = matches_criteria env listing filename st
          { init_options with perm_spec := some (String.mk [a, b, c]) }) := by
  have hval := digits_value_three 8 a b c
  norm_num at hval
  have hlt : digits_value 8 [a, b, c] < 512 := by
    have := ha.2.2
    have := hb.2.2
    have := hc.2.2
    omega
  have hparse : parse_perm_spec (some (String.mk [a, b, c])) = digits_value 8 [a, b, c] := by
    rw [parse_perm_spec_of_digits [a, b, c] (by simp)
      (by
        intro x hx
        simp only [List.mem_cons, List.mem_singleton, List.not_mem_nil, or_false] at hx
        rcases hx with rfl | rfl | rfl <;> assumption)
      (by
        have : (512 : Int) ≤ LONG_MAX := by decide
        omega)]
    omega
  refine ⟨?_, hval, ?_⟩
  · rw [matches_criteria_perm_only, perm_holds, hparse]
  · intro other hother
    rw [Bool.eq_iff_iff, matches_criteria_perm_only, matches_criteria_perm_only, perm_holds,
      perm_holds, hother]

/-- C8 at the specification "755": a directory of mode 040755 matches, and so
does an entry with the setuid bit and the same low 9 bits. -/
theorem perm_criterion_three_octal_digits_witness :
    is_digit 8 '7' ∧ is_digit 8 '5' ∧
      matches_criteria plain_env none "d" dir_stat
        { init_options with perm_spec := some "755" } = true ∧
      matches_criteria plain_env none "d" { dir_stat with st_mode := 0o104755 }
        { init_options with perm_spec := some "755" } = true :=
  ⟨by decide, by decide,
    (perm_criterion_three_octal_digits plain_env none "d" dir_stat '7' '5' '5'
      (by decide) (by decide) (by decide)).1.2 (by decide),
    by decide⟩


/-- C9 (the claim fails): the parser applies no 9-bit mask, so "1755" parses
to 01755 = 1005, which is neither its value modulo 512 (493) nor what "755"
parses to. -/
theorem parse_perm_spec_not_masked :
    parse_perm_spec (some "1755") = 1005 ∧
      parse_perm_spec (some "1755") ≠ digits_value 8 "1755".data % 512 ∧
      parse_perm_spec (some "1755") ≠ parse_perm_spec (some "755") := by
  decide

/-- C9 as amended: for a non-empty string of octal digits whose value fits
`long`, `parse_perm_spec` is the base-8 value reduced to the 32 bits of
`mode_t` and not masked to 9 bits: a value below 2^32 is returned as it is,
and it is its own residue modulo 512 only when it is below 512. -/
theorem parse_perm_spec_unmasked_value (ds : List Char) (hne : ds ≠ [])
    (hds : ∀ c ∈ ds, is_digit 8 c) (hv : (digits_value 8 ds : Int) ≤ LONG_MAX) :
    parse_perm_spec (some (String.mk ds)) = digits_value 8 ds % 2 ^ 32 ∧
      (digits_value 8 ds < 2 ^ 32 →
        parse_perm_spec (some (String.mk ds)) = digits_value 8 ds ∧
        (parse_perm_spec (some (String.mk ds)) = digits_value 8 ds % 512
          ↔ digits_value 8 ds < 512)) := by
  have h := parse_perm_spec_of_digits ds hne hds hv
  refine ⟨h, ?_⟩
  intro hlt
  have h' : parse_perm_spec (some (String.mk ds)) = digits_value 8 ds := by
    rw [h]
    exact Nat.mod_eq_of_lt hlt
  refine ⟨h', ?_⟩
  rw [h']
  omega

/-- C9 as amended, at "1755" and "755": the values 1005 and 493 come back
unmasked. -/
theorem parse_perm_spec_unmasked_value_witness :
    (digits_value 8 ['1', '7', '5', '5'] : Int) ≤ LONG_MAX ∧
      parse_perm_spec (some "1755") = 1005 ∧ parse_perm_spec (some "755") = 493 ∧
      parse_perm_spec (some "1755") = digits_value 8 ['1', '7', '5', '5'] % 2 ^ 32 :=
  ⟨by decide, by decide, by decide,
    (parse_perm_spec_unmasked_value ['1', '7', '5', '5'] (by decide) (by decide)
      (by decide)).1⟩

/-! ## C10: size specifications -/

theorem parse_size_spec_strip_sign (sign body : List Char)
    (hsign : sign = [] ∨ sign = ['+'] ∨ sign = ['-'])
    (hbody : char_at body 0 ≠ '+' ∧ char_at body 0 ≠ '-') :
    parse_size_spec (some (String.mk (sign ++ body))) = parse_size_spec (some (String.mk body)) := by
  obtain ⟨hp, hm⟩ := hbody
  rcases hsign with rfl | rfl | rfl
  · rfl
  · simp [parse_size_spec, char_at, hp, hm] at hp hm ⊢
    simp [hp, hm]
  · simp [parse_size_spec, char_at, hp, hm] at hp hm ⊢
    simp [hp, hm]

theorem parse_size_spec_of_digits (ds suffix : List Char) (hne : ds ≠ [])
    (hds : ∀ c ∈ ds, is_digit 10 c) (hsuffix : ¬ is_digit 10 (char_at suffix 0))
    (hv : (digits_value 10 ds : Int) ≤ LONG_MAX) :
    parse_size_spec (some (String.mk (ds ++ suffix)))
      = if char_at suffix 0 == 'k' || char_at suffix 0 == 'K' then
          wrap_long ((digits_value 10 ds : Int) * 1024)
        else if char_at suffix 0 == 'M' then
          wrap_long ((digits_value 10 ds : Int) * (1024 * 1024))
        else if char_at suffix 0 == 'G' then
          wrap_long ((digits_value 10 ds : Int) * (1024 * 1024 * 1024))
        else (digits_value 10 ds : Int) := by
  have h := strtol_of_digits 10 ds suffix hne hds hsuffix hv
  obtain ⟨c, cs, rfl⟩ := List.exists_cons_of_ne_nil hne
  obtain ⟨hp, hm⟩ := is_digit_not_sign (hds c (List.mem_cons_self _ _))
  have hsign : (char_at (c :: cs ++ suffix) 0 == '+' || char_at (c :: cs ++ suffix) 0 == '-')
      = false := by
    simp [char_at, hp, hm]
  simp only [parse_size_spec, hsign, Bool.false_eq_true, if_false, List.drop_zero, h]

/-- C10: for a non-empty run of decimal digits of value `n`, an optional
leading '+' or '-', and a scaled value within the range of `long`,
`parse_size_spec` returns `n` without a unit, `n*1024` for 'k' or 'K',
`n*1024^2` for 'M' and `n*1024^3` for 'G'; the leading sign does not change
the result; and lowercase 'm' and 'g' are no units: the value comes back
unscaled. -/
theorem parse_size_spec_units (sign ds : List Char)
    (hsign : sign = [] ∨ sign = ['+'] ∨ sign = ['-']) (hne : ds ≠ [])
    (hds : ∀ c ∈ ds, is_digit 10 c) :
    ((digits_value 10 ds : Int) ≤ LONG_MAX →
      parse_size_spec (some (String.mk (sign ++ ds))) = (digits_value 10 ds : Int)) ∧
    ((digits_value 10 ds : Int) * 1024 ≤ LONG_MAX →
      parse_size_spec (some (String.mk (sign ++ (ds ++ ['k']))))
          = (digits_value 10 ds : Int) * 1024 ∧
      parse_size_spec (some (String.mk (sign ++ (ds ++ ['K']))))
          = (digits_value 10 ds : Int) * 1024) ∧
    ((digits_value 10 ds : Int) * 1024 ^ 2 ≤ LONG_MAX →
      parse_size_spec (some (String.mk (sign ++ (ds ++ ['M']))))
          = (digits_value 10 ds : Int) * 1024 ^ 2) ∧
    ((digits_value 10 ds : Int) * 1024 ^ 3 ≤ LONG_MAX →
      parse_size_spec (some (String.mk (sign ++ (ds ++ ['G']))))
          = (digits_value 10 ds : Int) * 1024 ^ 3) ∧
    ((digits_value 10 ds : Int) ≤ LONG_MAX →
      parse_size_spec (some (String.mk (sign ++ (ds ++ ['m'])))) = (digits_value 10 ds : Int) ∧
      parse_size_spec (some (String.mk (sign ++ (ds ++ ['g'])))) = (digits_value 10 ds : Int)) ∧
    (∀ suffix : List Char,
      parse_size_spec (some (String.mk (sign ++ (ds ++ suffix))))
        = parse_size_spec (some (String.mk (ds ++ suffix)))) := by
  have hstrip : ∀ suffix : List Char,
      parse_size_spec (some (String.mk (sign ++ (ds ++ suffix))))
        = parse_size_spec (some (String.mk (ds ++ suffix))) := by
    intro suffix
    apply parse_size_spec_strip_sign sign (ds ++ suffix) hsign
    obtain ⟨c, cs, rfl⟩ := List.exists_cons_of_ne_nil hne
    simpa [char_at] using is_digit_not_sign (hds c (List.mem_cons_self _ _))
  have h0 : (0 : Int) ≤ (digits_value 10 ds : Int) := Int.natCast_nonneg _
  have hmin : LONG_MIN ≤ 0 := by decide
  refine ⟨?_, ?_, ?_, ?_, ?_, hstrip⟩
  · intro hv
    have h := hstrip []
    rw [List.append_nil] at h
    rw [h]
    have := parse_size_spec_of_digits ds [] hne hds (by decide) hv
    rw [List.append_nil] at this
    rw [this, if_neg (by decide), if_neg (by decide), if_neg (by decide)]
  · intro hv
    have hv' : (digits_value 10 ds : Int) ≤ LONG_MAX := by omega
    constructor
    · rw [hstrip, parse_size_spec_of_digits ds ['k'] hne hds (by decide) hv',
        if_pos (by decide)]
      exact wrap_long_of_range _ (by omega) hv
    · rw [hstrip, parse_size_spec_of_digits ds ['K'] hne hds (by decide) hv',
        if_pos (by decide)]
      exact wrap_long_of_range _ (by omega) hv
  · intro hv
    have e : (1024 : Int) ^ 2 = 1024 * 1024 := by norm_num
    rw [e] at hv ⊢
    have hv' : (digits_value 10 ds : Int) ≤ LONG_MAX := by omega
    rw [hstrip, parse_size_spec_of_digits ds ['M'] hne hds (by decide) hv',
      if_neg (by decide), if_pos (by decide)]
    exact wrap_long_of_range _ (by omega) hv
  · intro hv
    have e : (1024 : Int) ^ 3 = 1024 * 1024 * 1024 := by norm_num
    rw [e] at hv ⊢
    have hv' : (digits_value 10 ds : Int) ≤ LONG_MAX := by omega
    rw [hstrip, parse_size_spec_of_digits ds ['G'] hne hds (by decide) hv',
      if_neg (by decide), if_neg (by decide), if_pos (by decide)]
    exact wrap_long_of_range _ (by omega) hv
  · intro hv
    constructor
    · rw [hstrip, parse_size_spec_of_digits ds ['m'] hne hds (by decide) hv,
        if_neg (by decide), if_neg (by decide), if_neg (by decide)]
    · rw [hstrip, parse_size_spec_of_digits ds ['g'] hne hds (by decide) hv,
        if_neg (by decide), if_neg (by decide), if_neg (by decide)]

/-- C10 at the digits "5" behind a '-': "-5" is 5, "-5k" is 5120, "-5M" is
5242880, "-5G" is 5368709120, and "-5m" is 5. -/
theorem parse_size_spec_units_witness :
    (digits_value 10 ['5'] : Int) * 1024 ≤ LONG_MAX ∧
      parse_size_spec (some "-5") = 5 ∧ parse_size_spec (some "-5k") = 5120 ∧
      parse_size_spec (some "-5M") = 5242880 ∧ parse_size_spec (some "-5G") = 5368709120 ∧
      parse_size_spec (some "-5m") = 5 ∧
      parse_size_spec (some (String.mk (['-'] ++ (['5'] ++ ['k']))))
        = (digits_value 10 ['5'] : Int) * 1024 :=
  ⟨by decide, by decide, by decide, by decide, by decide, by decide,
    ((parse_size_spec_units ['-'] ['5'] (by decide) (by decide) (by decide)).2.1
      (by decide)).1⟩


/-! ## C11: size specifications without a digit -/

theorem char_at_mem_or_nul (s : List Char) : char_at s 0 ∈ s ∨ char_at s 0 = '\x00' := by
  cases s with
  | nil => exact Or.inr rfl
  | cons c cs => exact Or.inl (by simp [char_at])

theorem not_is_digit_nul (base : Nat) : ¬ is_digit base '\x00' := by
  rintro ⟨h, _, _⟩
  exact absurd h (by decide)

theorem not_is_digit_char_at_of_suffix (base : Nat) (s t : List Char)
    (hs : ∀ c ∈ s, ¬ is_digit base c) (ht : ∀ c ∈ t, c ∈ s) :
    ¬ is_digit base (char_at t 0) := by
  rcases char_at_mem_or_nul t with h | h
  · exact hs _ (ht _ h)
  · rw [h]
    exact not_is_digit_nul base

/-- When no digit follows the white space and sign, `strtol` converts nothing:
the value is 0 and `endptr` is the start of the string. -/
theorem strtol_no_conversion (base : Nat) (s : List Char)
    (h : ¬ is_digit base (char_at (after_space_and_sign s) 0)) :
    strtol s base = (0, s) := by
  have hnone : digit_of base (char_at (after_space_and_sign s) 0) = none := digit_of_eq_none h
  unfold after_space_and_sign at hnone
  unfold strtol
  by_cases hsign : char_at (s.dropWhile isspace) 0 = '+' ∨ char_at (s.dropWhile isspace) 0 = '-'
  · have hb : (char_at (s.dropWhile isspace) 0 == '-' || char_at (s.dropWhile isspace) 0 == '+')
        = true := by
      rcases hsign with h1 | h1 <;> simp [h1]
    rw [if_pos hsign] at hnone
    simp only [hb, if_true, hnone]
  · have hb : (char_at (s.dropWhile isspace) 0 == '-' || char_at (s.dropWhile isspace) 0 == '+')
        = false := by
      simp only [not_or] at hsign
      simp [hsign.1, hsign.2]
    rw [if_neg hsign] at hnone
    simp only [hb, Bool.false_eq_true, if_false, hnone]

theorem wrap_long_zero : wrap_long 0 = 0 := by decide

/-- On a string without any decimal digit `parse_size_spec` returns 0. -/
theorem parse_size_spec_without_digit (spec : String) (h : no_decimal_digit spec.data) :
    parse_size_spec (some spec) = 0 := by
  have hdrop : ∀ n, ∀ c ∈ spec.data.drop n, c ∈ spec.data :=
    fun n c hc => List.mem_of_mem_drop hc
  have hconv : ∀ n, strtol (spec.data.drop n) 10 = (0, spec.data.drop n) := by
    intro n
    apply strtol_no_conversion
    apply not_is_digit_char_at_of_suffix 10 spec.data _ h
    intro c hc
    unfold after_space_and_sign at hc
    split_ifs at hc
    · exact hdrop n c ((List.dropWhile_sublist _).subset (List.mem_of_mem_drop hc))
    · exact hdrop n c ((List.dropWhile_sublist _).subset hc)
  unfold parse_size_spec
  simp only [hconv, zero_mul, wrap_long_zero, ite_self]

/-- C11 (the code departs from the claim): on the empty string and on every
string without a decimal digit, such as "+", "k" and "abc", `parse_size_spec`
returns 0 and not its failure value -1. -/
theorem parse_size_spec_no_digit_returns_zero :
    parse_size_spec (some "") = 0 ∧ parse_size_spec (some "+") = 0 ∧
      parse_size_spec (some "k") = 0 ∧ parse_size_spec (some "abc") = 0 ∧
      (∀ spec : String, no_decimal_digit spec.data →
        parse_size_spec (some spec) = 0 ∧ parse_size_spec (some spec) ≠ -1) := by
  refine ⟨by decide, by decide, by decide, by decide, ?_⟩
  intro spec h
  rw [parse_size_spec_without_digit spec h]
  exact ⟨rfl, by decide⟩


/-! ## C12: permission specifications that are no number -/

theorem parse_perm_spec_no_conversion (perm_spec : String)
    (h : not_octal_number perm_spec.data) : parse_perm_spec (some perm_spec) = 0 := by
  show to_mode_t (strtol perm_spec.data 8).1 = 0
  rw [strtol_no_conversion 8 perm_spec.data h]
  rfl

/-- C12 (the claim fails): "rwx" does not make `parse_perm_spec` fail; it parses
to the bitmask 0, and with that specification an entry whose permission bits are
all clear (mode 0100000) matches. -/
theorem parse_perm_spec_rwx_matches :
    parse_perm_spec (some "rwx") = 0 ∧
      matches_criteria plain_env none "f" { file_stat 0 with st_mode := 0o100000 }
        { init_options with perm_spec := some "rwx" } = true := by
  decide

/-- C12 as amended: for a permission string in which no octal digit follows the
optional white space and sign, `parse_perm_spec` returns the bitmask 0, and
with only that permission criterion set an entry matches iff the low 9 bits of
its mode are all clear. -/
theorem parse_perm_spec_not_numeric_is_zero (perm_spec : String)
    (h : not_octal_number perm_spec.data) :
    parse_perm_spec (some perm_spec) = 0 ∧
      ∀ (env : Env) (listing : Option (List String)) (filename : String) (st : Stat),
        matches_criteria env listing filename st
            { init_options with perm_spec := some perm_spec } = true
          ↔ st.st_mode &&& 0o777 = 0 := by
  have h0 := parse_perm_spec_no_conversion perm_spec h
  refine ⟨h0, ?_⟩
  intro env listing filename st
  rw [matches_criteria_perm_only, perm_holds, h0]

/-- C12 as amended, at "rwx": the string is no octal number, parses to 0, and
matches a file of mode 0100000. -/
theorem parse_perm_spec_not_numeric_is_zero_witness :
    not_octal_number "rwx".data ∧ parse_perm_spec (some "rwx") = 0 ∧
      matches_criteria plain_env none "f" { file_stat 0 with st_mode := 0o100000 }
        { init_options with perm_spec := some "rwx" } = true :=
  ⟨by decide, (parse_perm_spec_not_numeric_is_zero "rwx" (by decide)).1,
    ((parse_perm_spec_not_numeric_is_zero "rwx" (by decide)).2 plain_env none "f"
      { file_stat 0 with st_mode := 0o100000 }).2 (by decide)⟩

/-! ## C13: malformed option arguments -/

/-- C13 (the claim fails): for "-s abc", "-p rwx" and "-t xyz" `parse_options`
returns 0 and `main` starts the walk; with "-s abc" on the tree
`./{a.txt (0 bytes), b/{c.log}}` the walk even reports the empty file. -/
theorem parse_options_accepts_malformed_arguments :
    (parse_options ["find", "-s", "abc"] init_options).1 = 0 ∧
      (parse_options ["find", "-p", "rwx"] init_options).1 = 0 ∧
      (parse_options ["find", "-t", "xyz"] init_options).1 = 0 ∧
      main plain_env (fun _ => tree_a_b_c) ["find", "-s", "abc"]
        = { exit_code := 0, walk := some [Output.stdout "./a.txt"] } ∧
      (main plain_env (fun _ => tree_a_b_c) ["find", "-p", "rwx"]).walk ≠ none ∧
      (main plain_env (fun _ => tree_a_b_c) ["find", "-t", "xyz"]).walk ≠ none := by
  decide

/-- C13 as amended: `parse_options` does not examine the argument of -s, -p or
-t. Whatever string follows the option, it returns 0 with the string stored as
the size or permission specification, or with its sign and `atoi` value stored
as the age criterion, and `main` then starts `find_recursive` and exits with
status 0. -/
theorem parse_options_stores_arguments_unchecked (prog arg : String) :
    parse_options [prog, "-s", arg] init_options
        = (0, { init_options with size_spec := some arg }) ∧
      parse_options [prog, "-p", arg] init_options
        = (0, { init_options with perm_spec := some arg }) ∧
      parse_options [prog, "-t", arg] init_options = (0, set_mtime init_options arg) ∧
      ∀ (env : Env) (entry_at : String → Node),
        main env entry_at [prog, "-s", arg]
          = { exit_code := 0,
              walk := some (find_recursive env { init_options with size_spec := some arg } "."
                (entry_at ".")) } ∧
        main env entry_at [prog, "-p", arg]
          = { exit_code := 0,
              walk := some (find_recursive env { init_options with perm_spec := some arg } "."
                (entry_at ".")) } ∧
        main env entry_at [prog, "-t", arg]
          = { exit_code := 0,
              walk := some (find_recursive env (set_mtime init_options arg) "."
                (entry_at ".")) } := by
  refine ⟨rfl, rfl, rfl, fun env entry_at => ⟨rfl, rfl, ?_⟩⟩
  have hpath : (set_mtime init_options arg).search_path = "." := by
    unfold set_mtime
    split_ifs <;> rfl
  have hmain : main env entry_at [prog, "-t", arg]
      = { exit_code := 0,
          walk := some (find_recursive env (set_mtime init_options arg)
            (set_mtime init_options arg).search_path
            (entry_at (set_mtime init_options arg).search_path)) } := rfl
  rw [hmain, hpath]

/-! ## C14: the owner criterion -/

theorem matches_criteria_owner_only (env : Env) (listing : Option (List String))
    (filename : String) (st : Stat) (user_name : String) :
    matches_criteria env listing filename st { init_options with user_name := some user_name }
        = true
      ↔ owner_holds env user_name st.st_uid := by
  rw [matches_criteria_iff]
  simp [criteria_hold, init_options]

/-- C14: when the identity lookup cannot resolve the owner name,
`matches_criteria` returns false whatever the other criteria are; when it
resolves the name to the id `u`, the owner criterion on its own passes iff the
owner id of the entry is `u` (the value `(uid_t)-1`, which no entry carries as
owner and which the code reserves for a failed lookup, set aside). -/
theorem owner_criterion_fails_closed (env : Env) (listing : Option (List String))
    (filename : String) (st : Stat) (user_name : String) :
    (∀ opts : find_options_t, opts.user_name = some user_name →
      env.getpwnam user_name = none →
      matches_criteria env listing filename st opts = false) ∧
    (∀ u : Nat, env.getpwnam user_name = some u →
      ¬ (u = UID_NONE ∧ st.st_uid = UID_NONE) →
      (matches_criteria env listing filename st
          { init_options with user_name := some user_name } = true
        ↔ st.st_uid = u)) := by
  constructor
  · intro opts hset hnone
    rw [← Bool.not_eq_true, matches_criteria_iff]
    rintro ⟨_, _, _, _, _, hown, _⟩
    have := (hown user_name hset).1
    simp [get_uid_by_name, hnone] at this
  · intro u hu hvalid
    rw [matches_criteria_owner_only]
    simp only [owner_holds, get_uid_by_name, hu]
    constructor
    · exact fun h => h.2
    · intro h
      refine ⟨?_, h⟩
      intro hnone
      exact hvalid ⟨hnone, h ▸ hnone⟩

/-- C14 with a lookup that knows "alice" as 1000 and nobody else: a file of
owner 1000 matches "alice", a file of owner 0 does not, and nothing matches
the unknown "bob". -/
theorem owner_criterion_fails_closed_witness :
    matches_criteria
        { plain_env with getpwnam := fun n => if n = "alice" then some 1000 else none }
        none "f" { file_stat 1 with st_uid := 1000 }
        { init_options with user_name := some "alice" } = true ∧
      matches_criteria
        { plain_env with getpwnam := fun n => if n = "alice" then some 1000 else none }
        none "f" (file_stat 1) { init_options with user_name := some "alice" } = false ∧
      matches_criteria
        { plain_env with getpwnam := fun n => if n = "alice" then some 1000 else none }
        none "f" { file_stat 1 with st_uid := 1000 }
        { init_options with user_name := some "bob" } = false :=
  ⟨((owner_criterion_fails_closed
        { plain_env with getpwnam := fun n => if n = "alice" then some 1000 else none }
        none "f" { file_stat 1 with st_uid := 1000 } "alice").2 1000 (by decide)
        (by decide)).2 (by decide),
    by decide,
    (owner_criterion_fails_closed
        { plain_env with getpwnam := fun n => if n = "alice" then some 1000 else none }
        none "f" { file_stat 1 with st_uid := 1000 } "bob").1
      { init_options with user_name := some "bob" } rfl (by decide)⟩


/-! ## C15: the name the patterns are matched against -/

/-- For a child of a listing the name taken from the path is the `d_name`. -/
theorem filename_of_child (path d_name : String) (h : '/' ∉ d_name.data) :
    filename_of (path ++ "/" ++ d_name) = d_name := by
  have hdata : (path ++ "/" ++ d_name).data = path.data ++ '/' :: d_name.data := by
    simp [String.data_append]
  have hall : ∀ c ∈ d_name.data.reverse, (c != '/') = true := by
    intro c hc
    have hc' : c ∈ d_name.data := List.mem_reverse.mp hc
    simp only [bne_iff_ne, ne_eq]
    rintro rfl
    exact h hc'
  unfold filename_of
  rw [hdata]
  have hrev : (path.data ++ '/' :: d_name.data).reverse
      = d_name.data.reverse ++ '/' :: path.data.reverse := by
    simp
  rw [hrev, List.takeWhile_append_of_pos hall]
  simp

/-- C15 (the code departs from the claim): for the root path "root/" the text
after the last '/' is empty, so the patterns are matched against the empty
string and not against the base name "root": with name pattern "root" the
directory is reported when the walk starts from "root" and is not reported
when it starts from "root/". -/
theorem root_with_trailing_slash_loses_its_name :
    filename_of "root/" = "" ∧ base_name "root/" = "root" ∧
      printed_paths (find_recursive plain_env { init_options with name_pattern := some "root" }
        "root/" (dir_node [])) = [] ∧
      printed_paths (find_recursive plain_env { init_options with name_pattern := some "root" }
        "root" (dir_node [])) = ["root"] := by
  decide

/-! ## C16: symbolic links -/

/-- C16 (the code departs from the claim): a root path that is a symbolic link
to a directory is inspected with `stat`, so it passes the type criterion for
directories and is descended into, although its own metadata say link; the
same link met as a child is inspected with `lstat` and is neither. -/
theorem root_symlink_is_followed :
    S_ISDIR link_stat.st_mode = false ∧
      printed_paths (find_recursive plain_env { init_options with type_dir := true }
        "link" link_to_dir) = ["link"] ∧
      printed_paths (find_recursive plain_env init_options "link" link_to_dir)
        = ["link", "link/f"] ∧
      printed_paths (find_recursive_loop plain_env { init_options with type_dir := true }
        "root" [("link", link_to_dir)]) = [] ∧
      printed_paths (find_recursive_loop plain_env init_options
        "root" [("link", link_to_dir)]) = ["root/link"] := by
  decide

/-! ## C17 and C18: entries that cannot be inspected or opened -/

theorem find_recursive_loop_append (env : Env) (opts : find_options_t) (path : String)
    (before after : List (String × Node)) :
    find_recursive_loop env opts path (before ++ after)
      = find_recursive_loop env opts path before ++ find_recursive_loop env opts path after := by
  induction before with
  | nil => simp [find_recursive_loop]
  | cons e rest ih =>
    obtain ⟨d_name, child⟩ := e
    rcases child with ⟨_ | l, s, d⟩
    · by_cases hb : (d_name == "." || d_name == "..") = true
      · simp [find_recursive_loop, hb, ih]
      · simp [find_recursive_loop, hb, ih, Node.lstat]
    · by_cases hb : (d_name == "." || d_name == "..") = true
      · simp [find_recursive_loop, hb, ih]
      · simp [find_recursive_loop, hb, ih, Node.lstat]

/-- C17 (the claim fails): on the tree `root/{gone, a.txt}` with `lstat` failing
on `root/gone` the walk prints `root` and `root/a.txt` and writes no
diagnostic at all. -/
theorem lstat_failure_emits_no_diagnostic :
    find_recursive plain_env init_options "root" tree_gone
        = [Output.stdout "root", Output.stdout "root/a.txt"] ∧
      Output.stderr "root/gone" ∉ find_recursive plain_env init_options "root" tree_gone := by
  decide

/-- C17 as amended: a child of a listing whose metadata `lstat` cannot obtain is
skipped in silence. The loop over the listing writes what it writes for the
entries before it followed by what it writes for the entries after it: the
path is not reported, nothing beneath it is visited, no diagnostic is written
for it, and the remaining siblings are walked. -/
theorem lstat_failure_skips_entry (env : Env) (opts : find_options_t) (path : String)
    (before after : List (String × Node)) (d_name : String) (child : Node)
    (h : child.lstat = none) :
    find_recursive_loop env opts path (before ++ (d_name, child) :: after)
      = find_recursive_loop env opts path before ++ find_recursive_loop env opts path after := by
  rw [find_recursive_loop_append]
  congr 1
  by_cases hb : (d_name == "." || d_name == "..") = true
  · simp [find_recursive_loop, hb]
  · simp [find_recursive_loop, hb, h]

/-- C17 as amended, at the listing of `root/{gone, a.txt}`: the entry `gone`
adds nothing between the pseudo-entries and `a.txt`. -/
theorem lstat_failure_skips_entry_witness :
    (Node.mk none none none).lstat = none ∧
      find_recursive_loop plain_env init_options "root"
          ([(".", pseudo_entry), ("..", pseudo_entry)]
            ++ ("gone", Node.mk none none none) :: [("a.txt", file_node 0)])
        = find_recursive_loop plain_env init_options "root"
            [(".", pseudo_entry), ("..", pseudo_entry)]
          ++ find_recursive_loop plain_env init_options "root" [("a.txt", file_node 0)] :=
  ⟨rfl, lstat_failure_skips_entry plain_env init_options "root"
    [(".", pseudo_entry), ("..", pseudo_entry)] [("a.txt", file_node 0)] "gone"
    (Node.mk none none none) rfl⟩

/-- C18: for a subdirectory `D` of a listing that cannot be opened, the loop
writes what it writes for the entries before `D`, then the reports of `D`
itself (from the loop and from the start of the recursive call, each iff `D`
matches there), then the error for `D`, and then what it writes for the
entries after `D`: `D` is evaluated and reported if it matches, no path
beneath `D` is reported, and the rest of the walk is as without the failure.
The path of `D` is the one the walk builds in its buffer. -/
theorem unopenable_subdirectory_is_reported_and_skipped (env : Env) (opts : find_options_t)
    (path : String) (before after : List (String × Node)) (d_name : String) (l s : Stat)
    (hdot : d_name ≠ ".") (hdotdot : d_name ≠ "..")
    (hl : S_ISDIR l.st_mode = true) (hs : S_ISDIR s.st_mode = true) :
    find_recursive_loop env opts path
        (before ++ (d_name, Node.mk (some l) (some s) none) :: after)
      = find_recursive_loop env opts path before
        ++ ((if matches_criteria env none d_name l opts then
              [Output.stdout (snprintf_path path d_name)] else [])
            ++ (if matches_criteria env none (filename_of (snprintf_path path d_name)) s opts then
              [Output.stdout (snprintf_path path d_name)] else [])
            ++ [Output.stderr (snprintf_path path d_name)])
        ++ find_recursive_loop env opts path after := by
  have hb : (d_name == "." || d_name == "..") = false := by simp [hdot, hdotdot]
  rw [find_recursive_loop_append, List.append_assoc]
  congr 1
  simp [find_recursive_loop, find_recursive, hb, Node.lstat, Node.listing, Node.dir, hl, hs]

/-- C18 on the tree `root/{a.txt, b/ (cannot be opened), z.txt}` with no
criterion: `root/b` is reported, an error is written for it, and the sibling
`root/z.txt` after it is still reported. -/
theorem unopenable_subdirectory_is_reported_and_skipped_witness :
    find_recursive plain_env init_options "root" tree_closed_b
        = [Output.stdout "root", Output.stdout "root/a.txt", Output.stdout "root/b",
            Output.stdout "root/b", Output.stderr "root/b", Output.stdout "root/z.txt"] ∧
      find_recursive_loop plain_env init_options "root"
          ([(".", pseudo_entry), ("..", pseudo_entry), ("a.txt", file_node 0)]
            ++ ("b", Node.mk (some dir_stat) (some dir_stat) none) :: [("z.txt", file_node 3)])
        = find_recursive_loop plain_env init_options "root"
            [(".", pseudo_entry), ("..", pseudo_entry), ("a.txt", file_node 0)]
          ++ ((if matches_criteria plain_env none "b" dir_stat init_options then
                [Output.stdout ("root" ++ "/" ++ "b")] else [])
              ++ (if matches_criteria plain_env none (filename_of ("root" ++ "/" ++ "b"))
                    dir_stat init_options then
                [Output.stdout ("root" ++ "/" ++ "b")] else [])
              ++ [Output.stderr ("root" ++ "/" ++ "b")])
          ++ find_recursive_loop plain_env init_options "root" [("z.txt", file_node 3)] :=
  ⟨by decide,
    unopenable_subdirectory_is_reported_and_skipped plain_env init_options "root"
      [(".", pseudo_entry), ("..", pseudo_entry), ("a.txt", file_node 0)]
      [("z.txt", file_node 3)] "b" dir_stat dir_stat (by decide) (by decide) (by decide)
      (by decide)⟩


/-! ## C19: termination -/

/-- C20 (the code departs from the claim): on the tree
`root/{a.txt (0 bytes), b/{c.log (10 bytes)}}` with type_dir set and name
pattern "b", the walk from "root" prints `root/b` twice and nothing else: once
from the listing loop of `root` and once at the start of the recursive call
on `root/b`. -/
theorem find_dir_named_b_prints_twice :
    find_recursive plain_env { init_options with type_dir := true, name_pattern := some "b" }
        "root" tree_a_b_c
      = [Output.stdout "root/b", Output.stdout "root/b"] := by
  decide


/-! ## The two embeddings of the traversal agree -/

theorem is_empty_listing_irrelevant (l1 l2 : Option (List String)) (st : Stat)
    (h : S_ISDIR st.st_mode = false) : is_empty l1 st = is_empty l2 st := by
  simp [is_empty, h]

theorem matches_criteria_listing_irrelevant (env : Env) (l1 l2 : Option (List String))
    (filename : String) (st : Stat) (opts : find_options_t) (h : S_ISDIR st.st_mode = false) :
    matches_criteria env l1 filename st opts = matches_criteria env l2 filename st opts := by
  unfold matches_criteria
  rw [is_empty_listing_irrelevant l1 l2 st h]

mutual
theorem find_recursive_fuel_eq_tree (env : Env) (fs : FileSystem) (opts : find_options_t)
    (path : String) : (t : Node) → recorded_by fs path t →
      ∃ n, ∀ fuel, n ≤ fuel →
        find_recursive_fuel env fs opts fuel path = some (find_recursive env opts path t)
  | .mk lstat stat none, h => by
    simp only [recorded_by] at h
    obtain ⟨_, hs, ho⟩ := h
    refine ⟨1, fun fuel hfuel => ?_⟩
    obtain ⟨k, rfl⟩ : ∃ k, fuel = k + 1 := ⟨fuel - 1, by omega⟩
    cases stat <;> simp [find_recursive_fuel, find_recursive, hs, ho] <;> split_ifs <;> rfl
  | .mk lstat stat (some children), h => by
    simp only [recorded_by] at h
    obtain ⟨_, hs, ho, hbelow⟩ := h
    obtain ⟨n, hn⟩ := find_recursive_fuel_loop_eq_tree env fs opts path children hbelow
    refine ⟨n + 1, fun fuel hfuel => ?_⟩
    obtain ⟨k, rfl⟩ : ∃ k, fuel = k + 1 := ⟨fuel - 1, by omega⟩
    have hk := hn k (by omega)
    cases stat <;>
      simp [find_recursive_fuel, find_recursive, hs, ho, hk] <;> split_ifs <;> rfl
theorem find_recursive_fuel_loop_eq_tree (env : Env) (fs : FileSystem)
    (opts : find_options_t) (path : String) :
    (children : List (String × Node)) → recorded_below fs path children →
      ∃ n, ∀ fuel, n ≤ fuel →
        find_recursive_fuel_loop env fs opts (find_recursive_fuel env fs opts fuel) path
            (children.map Prod.fst)
          = some (find_recursive_loop env opts path children)
  | [], _ => ⟨0, fun _ _ => rfl⟩
  | (d_name, child) :: rest, h => by
    simp only [recorded_below] at h
    obtain ⟨hchild, hrest⟩ := h
    obtain ⟨n, hn⟩ := find_recursive_fuel_loop_eq_tree env fs opts path rest hrest
    by_cases hb : (d_name == "." || d_name == "..") = true
    · refine ⟨n, fun fuel hfuel => ?_⟩
      simp only [List.map_cons, find_recursive_fuel_loop, find_recursive_loop, hb, if_true,
        hn fuel hfuel]
    · have hdots : ¬ (d_name = "." ∨ d_name = "..") := by simpa using hb
      have hc : fs.lstat (snprintf_path path d_name) = child.lstat ∧
          ∀ st, child.lstat = some st → S_ISDIR st.st_mode = true →
            recorded_by fs (snprintf_path path d_name) child := by
        rcases hchild with h1 | h1 | h1
        · exact absurd (Or.inl h1) hdots
        · exact absurd (Or.inr h1) hdots
        · exact h1
      obtain ⟨hl, hrec⟩ := hc
      cases hcl : child.lstat with
      | none =>
        refine ⟨n, fun fuel hfuel => ?_⟩
        rw [hcl] at hl
        simp only [List.map_cons, find_recursive_fuel_loop, find_recursive_loop, hb,
          Bool.false_eq_true, if_false, hl, hcl, hn fuel hfuel]
      | some st =>
        rw [hcl] at hl
        by_cases hdir : S_ISDIR st.st_mode = true
        · have hr := hrec st hcl hdir
          obtain ⟨m, hm⟩ := find_recursive_fuel_eq_tree env fs opts (snprintf_path path d_name)
            child hr
          have hopen : fs.opendir (snprintf_path path d_name) = child.listing := by
            rcases child with ⟨cl, cs, _ | cd⟩
            · simp only [recorded_by] at hr
              simp [Node.listing, Node.dir, hr.2.2]
            · simp only [recorded_by] at hr
              simp [Node.listing, Node.dir, hr.2.2.1]
          refine ⟨max n m, fun fuel hfuel => ?_⟩
          simp only [List.map_cons, find_recursive_fuel_loop, find_recursive_loop, hb,
            Bool.false_eq_true, if_false, hl, hcl, hdir, if_true,
            hn fuel (le_trans (le_max_left _ _) hfuel),
            hm fuel (le_trans (le_max_right _ _) hfuel), hopen]
        · refine ⟨n, fun fuel hfuel => ?_⟩
          have hdir' : S_ISDIR st.st_mode = false := by simpa using hdir
          simp only [List.map_cons, find_recursive_fuel_loop, find_recursive_loop, hb,
            Bool.false_eq_true, if_false, hl, hcl, hdir', hn fuel hfuel,
            matches_criteria_listing_irrelevant env (fs.opendir (snprintf_path path d_name))
              child.listing d_name st opts hdir', List.append_nil]
end


theorem cyclic_tree_recorded : recorded_by cyclic_fs "root" cyclic_tree := by
  have hne : snprintf_path "root" "self" ≠ "root" := by decide
  simp only [cyclic_tree, recorded_by, recorded_below, cyclic_fs, Node.lstat, hne, if_false,
    if_true, List.map_cons, List.map_nil, true_and, and_true]
  refine ⟨Or.inl trivial, Or.inr (Or.inl trivial), Or.inr (Or.inr ?_)⟩
  intro st hst hdir
  simp only [Option.some.injEq] at hst
  rw [← hst] at hdir
  exact absurd hdir (by decide)

/-- On the cyclic file system the walk over the system calls and the walk over
the recorded tree write the same output. -/
theorem cyclic_fs_walks_agree :
    find_recursive_fuel plain_env cyclic_fs init_options 2 "root"
      = some (find_recursive plain_env init_options "root" cyclic_tree) := by
  decide


/-! ## C21 and C22: queries on the tree root/{a.txt, b/{c.log}} -/

/-- C21: on the tree `root/{a.txt (0 bytes), b/{c.log (10 bytes)}}` the walk
from "root" with type_file and empty_filter set writes the one line
`root/a.txt` and nothing else, whatever the environment. -/
theorem find_empty_files_reports_a_txt (env : Env) :
    find_recursive env { init_options with type_file := true, empty_filter := true }
        "root" tree_a_b_c
      = [Output.stdout "root/a.txt"] := by
  have hm : ∀ (listing : Option (List String)) (filename : String) (st : Stat),
      matches_criteria env listing filename st
          { init_options with type_file := true, empty_filter := true }
        = (S_ISREG st.st_mode && is_empty listing st) := by
    intro listing filename st
    simp [matches_criteria, init_options]
  have hd : S_ISDIR dir_stat.st_mode = true := by decide
  have hdr : S_ISREG dir_stat.st_mode = false := by decide
  have hf : ∀ size : Int, S_ISDIR (file_stat size).st_mode = false := fun _ => by
    show S_ISDIR 0o100644 = false
    decide
  have hfr : ∀ size : Int, S_ISREG (file_stat size).st_mode = true := fun _ => by
    show S_ISREG 0o100644 = true
    decide
  have he : ∀ (listing : Option (List String)) (size : Int),
      is_empty listing (file_stat size) = decide (size = 0) := by
    intro listing size
    have := hfr size
    simp [is_empty, this]
    rfl
  have hp1 : snprintf_path "root" "a.txt" = "root/a.txt" := by decide
  have hp2 : snprintf_path "root" "b" = "root/b" := by decide
  have hp3 : snprintf_path "root/b" "c.log" = "root/b/c.log" := by decide
  simp [tree_a_b_c, dir_node, file_node, pseudo_entry, find_recursive, find_recursive_loop,
    hm, Node.lstat, Node.listing, Node.dir, hd, hdr, hf, hfr, he, hp1, hp2, hp3]

theorem parse_size_spec_plus_five : parse_size_spec (some "+5") = 5 := by decide

theorem matches_size_plus_five (env : Env) (listing : Option (List String))
    (filename : String) (st : Stat) :
    matches_criteria env listing filename st { init_options with size_spec := some "+5" }
      = decide (5 < st.st_size) := by
  rw [Bool.eq_iff_iff, matches_criteria_size_only]
  have hc : char_at "+5".data 0 = '+' := by decide
  simp [size_holds, parse_size_spec_plus_five, hc]

theorem find_size_plus_five_output (env : Env) (root_size b_size : Int) :
    find_recursive env { init_options with size_spec := some "+5" } "root"
        (tree_a_b_c_sized root_size b_size)
      = (if 5 < root_size then [Output.stdout "root"] else [])
        ++ (if 5 < b_size then [Output.stdout "root/b", Output.stdout "root/b"] else [])
        ++ [Output.stdout "root/b/c.log"] := by
  have hd : S_ISDIR dir_stat.st_mode = true := by decide
  have hf : ∀ size : Int, S_ISDIR (file_stat size).st_mode = false := fun _ => by
    show S_ISDIR 0o100644 = false
    decide
  have hs : ∀ size : Int, (file_stat size).st_size = size := fun _ => rfl
  have hp1 : snprintf_path "root" "a.txt" = "root/a.txt" := by decide
  have hp2 : snprintf_path "root" "b" = "root/b" := by decide
  have hp3 : snprintf_path "root/b" "c.log" = "root/b/c.log" := by decide
  by_cases hr : 5 < root_size <;> by_cases hbs : 5 < b_size <;>
    simp [tree_a_b_c_sized, file_node, pseudo_entry, find_recursive, find_recursive_loop,
      matches_size_plus_five, Node.lstat, Node.listing, Node.dir, hd, hf, hs, hr, hbs,
      hp1, hp2, hp3]

/-- C22 (the claim fails): with the directory sizes a file system commonly
reports (4096 bytes) the query "+5" also reports the directories, `root` once
and `root/b` twice, before `root/b/c.log`. -/
theorem find_size_plus_five_reports_directories :
    printed_paths (find_recursive plain_env { init_options with size_spec := some "+5" }
        "root" tree_a_b_c)
      = ["root", "root/b", "root/b", "root/b/c.log"] := by
  decide

/-- C22 as amended: on the tree `root/{a.txt (0 bytes), b/{c.log (10 bytes)}}`
with size specification "+5" and no other criterion, the paths reported are
`root/b/c.log` and each of the directories `root` and `root/b` whose reported
size exceeds 5 bytes; when both directories are reported with at most 5 bytes
the output is exactly `root/b/c.log`. -/
theorem find_size_plus_five_reports (env : Env) (root_size b_size : Int) :
    (∀ p, p ∈ printed_paths (find_recursive env { init_options with size_spec := some "+5" }
          "root" (tree_a_b_c_sized root_size b_size))
        ↔ p = "root/b/c.log" ∨ (p = "root" ∧ 5 < root_size) ∨ (p = "root/b" ∧ 5 < b_size)) ∧
    (root_size ≤ 5 → b_size ≤ 5 →
      find_recursive env { init_options with size_spec := some "+5" } "root"
          (tree_a_b_c_sized root_size b_size)
        = [Output.stdout "root/b/c.log"]) := by
  rw [find_size_plus_five_output]
  constructor
  · intro p
    by_cases hr : 5 < root_size <;> by_cases hbs : 5 < b_size <;>
      simp [hr, hbs, printed_paths] <;> tauto
  · intro hr hbs
    have hr' : ¬ 5 < root_size := by omega
    have hb' : ¬ 5 < b_size := by omega
    simp [hr', hb']


/-! ## C23: the search path -/

theorem set_mtime_with_search_path (path : String) (opts : find_options_t) (a : String) :
    set_mtime (with_search_path path opts) a = with_search_path path (set_mtime opts a) := by
  unfold set_mtime
  split_ifs <;> rfl

theorem parse_letters_other (next : Option String) (c : Char) (cs : List Char)
    (opts : find_options_t) (hf : c ≠ 'f') (hd : c ≠ 'd') (he : c ≠ 'e') (hn : c ≠ 'n')
    (hi : c ≠ 'i') (hs : c ≠ 's') (hu : c ≠ 'u') (hp : c ≠ 'p') (ht : c ≠ 't')
    (hh : c ≠ 'h') :
    parse_letters next (c :: cs) opts = LetterResult.returned (-1) opts := by
  rw [parse_letters.eq_def]
  dsimp only
  rw [if_neg (by simpa using hf), if_neg (by simpa using hd), if_neg (by simpa using he),
    if_neg (by simpa using hn), if_neg (by simpa using hi), if_neg (by simpa using hs),
    if_neg (by simpa using hu), if_neg (by simpa using hp), if_neg (by simpa using ht),
    if_neg (by simpa using hh)]

theorem parse_letters_with_search_path (path : String) (next : Option String)
    (letters : List Char) (opts : find_options_t) :
    parse_letters next letters (with_search_path path opts)
      = (parse_letters next letters opts).with_search_path path := by
  induction letters generalizing opts with
  | nil => rfl
  | cons c cs ih =>
    by_cases hf : c = 'f'
    · subst hf
      show parse_letters next cs (with_search_path path { opts with type_file := true })
        = (parse_letters next cs { opts with type_file := true }).with_search_path path
      exact ih _
    by_cases hd : c = 'd'
    · subst hd
      show parse_letters next cs (with_search_path path { opts with type_dir := true })
        = (parse_letters next cs { opts with type_dir := true }).with_search_path path
      exact ih _
    by_cases he : c = 'e'
    · subst he
      show parse_letters next cs (with_search_path path { opts with empty_filter := true })
        = (parse_letters next cs { opts with empty_filter := true }).with_search_path path
      exact ih _
    by_cases hn : c = 'n'
    · subst hn
      cases cs <;> cases next <;> rfl
    by_cases hi : c = 'i'
    · subst hi
      cases cs <;> cases next <;> rfl
    by_cases hs : c = 's'
    · subst hs
      cases cs <;> cases next <;> rfl
    by_cases hu : c = 'u'
    · subst hu
      cases cs <;> cases next <;> rfl
    by_cases hp : c = 'p'
    · subst hp
      cases cs <;> cases next <;> rfl
    by_cases ht : c = 't'
    · subst ht
      cases cs <;> cases next <;> first
        | rfl
        | exact congrArg LetterResult.took_next (set_mtime_with_search_path path opts _)
    by_cases hh : c = 'h'
    · subst hh
      rfl
    rw [parse_letters_other next c cs _ hf hd he hn hi hs hu hp ht hh,
      parse_letters_other next c cs _ hf hd he hn hi hs hu hp ht hh]
    rfl

theorem parse_loop_with_search_path (path : String) (skip : Bool) (tokens : List String)
    (opts : find_options_t) :
    parse_loop skip tokens (with_search_path path opts)
      = ((parse_loop skip tokens opts).1, with_search_path path (parse_loop skip tokens opts).2) := by
  induction tokens generalizing skip opts with
  | nil => rfl
  | cons a rest ih =>
    simp only [parse_loop]
    split_ifs
    · exact ih _ _
    · exact ih _ _
    · rw [parse_letters_with_search_path]
      cases parse_letters rest.head? (List.drop 1 a.data) opts with
      | exhausted o => exact ih _ _
      | took_next o => exact ih _ _
      | returned code o => rfl

theorem parse_loop_search_path (skip : Bool) (tokens : List String) (opts : find_options_t) :
    (parse_loop skip tokens opts).2.search_path = opts.search_path := by
  have h := parse_loop_with_search_path opts.search_path skip tokens opts
  have hself : with_search_path opts.search_path opts = opts := rfl
  rw [hself] at h
  have h2 := congrArg (fun r => r.2.search_path) h
  simp only [with_search_path] at h2
  exact h2

theorem parse_loop_skip_operand (a : String) (rest : List String) (opts : find_options_t)
    (h : char_at a.data 0 ≠ '-') :
    parse_loop false (a :: rest) opts = parse_loop false rest opts := by
  have hb : (char_at a.data 0 != '-') = true := by simpa using h
  simp [parse_loop, hb]

/-- C23: after `init_options` and `parse_options` the search path is `argv[1]`
when that argument exists and does not begin with '-', and "." otherwise; and
when the path argument is present, the return value and every other option
are those of the argument vector without it. -/
theorem search_path_from_first_argument :
    (∀ argv : List String,
      (parse_options argv init_options).2.search_path
        = (match argv with
           | _ :: first :: _ => if char_at first.data 0 ≠ '-' then first else "."
           | _ => ".")) ∧
    (∀ (prog path : String) (rest : List String), char_at path.data 0 ≠ '-' →
      parse_options (prog :: path :: rest) init_options
        = ((parse_options (prog :: rest) init_options).1,
            { (parse_options (prog :: rest) init_options).2 with search_path := path })) := by
  constructor
  · intro argv
    rcases argv with _ | ⟨prog, _ | ⟨first, rest⟩⟩
    · rfl
    · rfl
    · by_cases h : char_at first.data 0 = '-'
      · have hb : (char_at first.data 0 != '-') = false := by simp [h]
        have hv : parse_options (prog :: first :: rest) init_options
            = parse_loop false (first :: rest) init_options := by
          simp only [parse_options, hb, Bool.false_eq_true, if_false]
        rw [hv, parse_loop_search_path]
        show init_options.search_path = if ¬ char_at first.data 0 = '-' then first else "."
        rw [if_neg (not_not.mpr h)]
        rfl
      · have hb : (char_at first.data 0 != '-') = true := by simpa using h
        have hv : parse_options (prog :: first :: rest) init_options
            = parse_loop false rest { init_options with search_path := first } := by
          simp only [parse_options, hb, if_true]
        rw [hv, parse_loop_search_path]
        show first = if ¬ char_at first.data 0 = '-' then first else "."
        rw [if_pos h]
  · intro prog path rest hpath
    have hb : (char_at path.data 0 != '-') = true := by simpa using hpath
    have hleft : parse_options (prog :: path :: rest) init_options
        = parse_loop false rest (with_search_path path init_options) := by
      simp only [parse_options, hb, if_true]
      rfl
    rw [hleft, parse_loop_with_search_path]
    rcases rest with _ | ⟨first, rest'⟩
    · rfl
    · by_cases h : char_at first.data 0 = '-'
      · have hb' : (char_at first.data 0 != '-') = false := by simp [h]
        have hv : parse_options (prog :: first :: rest') init_options
            = parse_loop false (first :: rest') init_options := by
          simp only [parse_options, hb', Bool.false_eq_true, if_false]
        rw [hv]
        rfl
      · have hb' : (char_at first.data 0 != '-') = true := by simpa using h
        have hv : parse_options (prog :: first :: rest') init_options
            = parse_loop false rest' (with_search_path first init_options) := by
          simp only [parse_options, hb', if_true]
          rfl
        rw [hv, parse_loop_skip_operand first rest' init_options h,
          parse_loop_with_search_path]
        rfl

/-- C23 at the command line `find dir -f other`: the path is `dir`, the later
operand `other` does not replace it, and the file flag is set as without the
path argument. -/
theorem search_path_from_first_argument_witness :
    parse_options ["find", "dir", "-f", "other"] init_options
        = (0, { init_options with type_file := true, search_path := "dir" }) ∧
      (parse_options ["find", "-f", "other"] init_options).2.search_path = "." ∧
      parse_options ["find", "dir", "-f", "other"] init_options
        = ((parse_options ["find", "-f", "other"] init_options).1,
            { (parse_options ["find", "-f", "other"] init_options).2 with
              search_path := "dir" }) :=
  ⟨by decide, by decide,
    search_path_from_first_argument.2 "find" "dir" ["-f", "other"] (by decide)⟩


/-! ## C24: the return value of parse_options -/

theorem parse_letters_flags (next : Option String) (flags letters : List Char)
    (hflags : ∀ c ∈ flags, is_flag_letter c) (opts : find_options_t) :
    ∃ opts', parse_letters next (flags ++ letters) opts = parse_letters next letters opts' := by
  induction flags generalizing opts with
  | nil => exact ⟨opts, rfl⟩
  | cons c cs ih =>
    have ihcs := ih (fun x hx => hflags x (List.mem_cons_of_mem _ hx))
    rcases hflags c (List.mem_cons_self _ _) with h | h | h
    · subst h
      exact ihcs { opts with type_file := true }
    · subst h
      exact ihcs { opts with type_dir := true }
    · subst h
      exact ihcs { opts with empty_filter := true }

theorem parse_letters_all_flags (next : Option String) (flags : List Char)
    (hflags : ∀ c ∈ flags, is_flag_letter c) (opts : find_options_t) :
    ∃ opts', parse_letters next flags opts = LetterResult.exhausted opts' := by
  obtain ⟨o, ho⟩ := parse_letters_flags next flags [] hflags opts
  rw [List.append_nil] at ho
  exact ⟨o, ho⟩

theorem parse_letters_unknown (next : Option String) (c : Char) (cs : List Char)
    (opts : find_options_t) (h : is_unknown_letter c) :
    parse_letters next (c :: cs) opts = LetterResult.returned (-1) opts := by
  obtain ⟨hflag, harg, hh⟩ := h
  simp only [is_flag_letter, takes_argument, not_or] at hflag harg
  exact parse_letters_other next c cs opts hflag.1 hflag.2.1 hflag.2.2 harg.1 harg.2.1
    harg.2.2.1 harg.2.2.2.1 harg.2.2.2.2.1 harg.2.2.2.2.2 hh

theorem parse_letters_takes_next (arg : String) (c : Char) (opts : find_options_t)
    (h : takes_argument c) :
    ∃ opts', parse_letters (some arg) [c] opts = LetterResult.took_next opts' := by
  rcases h with h | h | h | h | h | h <;> subst h <;> exact ⟨_, rfl⟩

theorem parse_letters_missing (c : Char) (opts : find_options_t) (h : takes_argument c) :
    parse_letters none [c] opts = LetterResult.returned (-1) opts := by
  rcases h with h | h | h | h | h | h <;> subst h <;> rfl

theorem parse_letters_bundled (next : Option String) (c d : Char) (cs : List Char)
    (opts : find_options_t) (h : takes_argument c) :
    parse_letters next (c :: d :: cs) opts = LetterResult.returned (-1) opts := by
  rcases h with h | h | h | h | h | h <;> subst h <;> cases next <;> rfl

theorem first_other_letter (letters : List Char) :
    (∀ c ∈ letters, is_flag_letter c) ∨
      ∃ flags c cs, letters = flags ++ c :: cs ∧ (∀ x ∈ flags, is_flag_letter x) ∧
        ¬ is_flag_letter c := by
  induction letters with
  | nil => exact Or.inl (fun _ h => absurd h (List.not_mem_nil _))
  | cons c cs ih =>
    by_cases hc : is_flag_letter c
    · rcases ih with h | ⟨flags, x, xs, hl, hf, hx⟩
      · left
        intro y hy
        rcases List.mem_cons.mp hy with rfl | hy'
        · exact hc
        · exact h y hy'
      · right
        refine ⟨c :: flags, x, xs, by rw [hl]; rfl, ?_, hx⟩
        intro y hy
        rcases List.mem_cons.mp hy with rfl | hy'
        · exact hc
        · exact hf y hy'
    · exact Or.inr ⟨[], c, cs, rfl, fun _ h => absurd h (List.not_mem_nil _), hc⟩

theorem parse_loop_option_token (a : String) (rest : List String) (letters : List Char)
    (opts : find_options_t) (h : a.data = '-' :: letters) :
    parse_loop false (a :: rest) opts
      = match parse_letters rest.head? letters opts with
        | LetterResult.exhausted o => parse_loop false rest o
        | LetterResult.took_next o => parse_loop true rest o
        | LetterResult.returned code o => (code, o) := by
  rw [parse_loop.eq_def]
  simp [h, char_at]

theorem parse_loop_skipped (a : String) (rest : List String) (opts : find_options_t) :
    parse_loop true (a :: rest) opts = parse_loop false rest opts := by
  rw [parse_loop.eq_def]
  simp

theorem data_of_dash (a : String) (h : ¬ char_at a.data 0 ≠ '-') :
    a.data = '-' :: a.data.drop 1 := by
  have h' : char_at a.data 0 = '-' := not_not.mp h
  cases hd : a.data with
  | nil =>
    rw [hd] at h'
    exact absurd h' (by decide)
  | cons c cs =>
    rw [hd] at h'
    simp only [char_at, List.getD_cons_zero] at h'
    rw [h']
    rfl

theorem parse_loop_returns_code (tokens : List String) :
    (∀ opts, ReturnsCode tokens (parse_loop false tokens opts).1) ∧
      (∀ opts, ReturnsCode tokens.tail (parse_loop true tokens opts).1) := by
  induction tokens with
  | nil => exact ⟨fun _ => ReturnsCode.used_up, fun _ => ReturnsCode.used_up⟩
  | cons a rest ih =>
    refine ⟨?_, fun opts => ?_⟩
    · intro opts
      by_cases hop : char_at a.data 0 ≠ '-'
      · rw [parse_loop_skip_operand a rest opts hop]
        exact ReturnsCode.operand a rest _ hop (ih.1 opts)
      · have hdata := data_of_dash a hop
        rw [parse_loop_option_token a rest _ opts hdata]
        rcases first_other_letter (a.data.drop 1) with hall | ⟨flags, c, cs, hl, hflags, hc⟩
        · obtain ⟨o, ho⟩ := parse_letters_all_flags rest.head? _ hall opts
          rw [ho]
          exact ReturnsCode.flags_only a rest _ _ hdata hall (ih.1 o)
        · rw [hl] at hdata
          obtain ⟨o, ho⟩ := parse_letters_flags rest.head? flags (c :: cs) hflags opts
          rw [hl, ho]
          by_cases hh : c = 'h'
          · subst hh
            exact ReturnsCode.help a rest flags cs hdata hflags
          by_cases harg : takes_argument c
          · rcases cs with _ | ⟨d, cs'⟩
            · rcases rest with _ | ⟨arg, rest'⟩
              · rw [List.head?_nil, parse_letters_missing c o harg]
                exact ReturnsCode.missing a flags c hdata hflags harg
              · obtain ⟨o', ho'⟩ := parse_letters_takes_next arg c o harg
                rw [List.head?_cons, ho']
                exact ReturnsCode.with_argument a arg rest' _ flags c hdata hflags harg
                  (ih.2 o')
            · rw [parse_letters_bundled _ c d cs' o harg]
              exact ReturnsCode.bundled a rest flags c d cs' hdata hflags harg
          · rw [parse_letters_unknown _ c cs o ⟨hc, harg, hh⟩]
            exact ReturnsCode.unknown a rest flags c cs hdata hflags ⟨hc, harg, hh⟩
    · rw [parse_loop_skipped]
      exact ih.1 opts

theorem char_at_of_data_dash (a : String) (letters : List Char) (h : a.data = '-' :: letters) :
    ¬ char_at a.data 0 ≠ '-' := by
  rw [h]
  simp [char_at]

theorem returns_code_unique (tokens : List String) (code : Int) (h : ReturnsCode tokens code) :
    ∀ opts, (parse_loop false tokens opts).1 = code := by
  induction h with
  | used_up => intro opts; rfl
  | operand a rest code hop _ ih =>
    intro opts
    rw [parse_loop_skip_operand a rest opts hop]
    exact ih opts
  | flags_only a rest code flags hdata hflags _ ih =>
    intro opts
    obtain ⟨o, ho⟩ := parse_letters_all_flags rest.head? flags hflags opts
    rw [parse_loop_option_token a rest flags opts hdata, ho]
    exact ih o
  | with_argument a arg rest code flags c hdata hflags harg _ ih =>
    intro opts
    obtain ⟨o, ho⟩ := parse_letters_flags (some arg) flags [c] hflags opts
    obtain ⟨o', ho'⟩ := parse_letters_takes_next arg c o harg
    rw [parse_loop_option_token a (arg :: rest) _ opts hdata, List.head?_cons, ho, ho']
    show (parse_loop true (arg :: rest) o').1 = code
    rw [parse_loop_skipped]
    exact ih o'
  | help a rest flags cs hdata hflags =>
    intro opts
    obtain ⟨o, ho⟩ := parse_letters_flags rest.head? flags ('h' :: cs) hflags opts
    rw [parse_loop_option_token a rest _ opts hdata, ho]
    rfl
  | unknown a rest flags c cs hdata hflags hc =>
    intro opts
    obtain ⟨o, ho⟩ := parse_letters_flags rest.head? flags (c :: cs) hflags opts
    rw [parse_loop_option_token a rest _ opts hdata, ho, parse_letters_unknown _ c cs o hc]
  | bundled a rest flags c d cs hdata hflags harg =>
    intro opts
    obtain ⟨o, ho⟩ := parse_letters_flags rest.head? flags (c :: d :: cs) hflags opts
    rw [parse_loop_option_token a rest _ opts hdata, ho, parse_letters_bundled _ c d cs o harg]
  | missing a flags c hdata hflags harg =>
    intro opts
    obtain ⟨o, ho⟩ := parse_letters_flags none flags [c] hflags opts
    rw [parse_loop_option_token a [] _ opts hdata, List.head?_nil, ho,
      parse_letters_missing c o harg]

theorem parse_options_as_loop (argv : List String) (opts : find_options_t) :
    ∃ opts', parse_options argv opts = parse_loop false (argv.drop 1) opts' := by
  rcases argv with _ | ⟨prog, _ | ⟨first, rest⟩⟩
  · exact ⟨opts, rfl⟩
  · exact ⟨opts, rfl⟩
  · by_cases h : char_at first.data 0 ≠ '-'
    · have hb : (char_at first.data 0 != '-') = true := by simpa using h
      refine ⟨{ opts with search_path := first }, ?_⟩
      show parse_options (prog :: first :: rest) opts
        = parse_loop false (first :: rest) { opts with search_path := first }
      rw [parse_loop_skip_operand first rest _ h]
      simp only [parse_options, hb, if_true]
    · have hb : (char_at first.data 0 != '-') = false := by simpa using h
      refine ⟨opts, ?_⟩
      simp only [parse_options, hb, Bool.false_eq_true, if_false, List.drop_succ_cons,
        List.drop_zero]

/-- C24: the return value of `parse_options` is the one the specification
assigns to the arguments after the program name (1 when the first letter that
is not one of the flags f, d, e is 'h'; -1 when it is an unknown letter, or an
argument-taking letter n, i, s, u, p, t that is not the last of its token or
has no argument after it; 0 when the arguments are used up), and no other
value fits; the bundled token "-fde" sets type_file, type_dir and empty_filter
and leaves every other option at its initial value. -/
theorem parse_options_return_value :
    (∀ (argv : List String) (opts : find_options_t),
      ReturnsCode (argv.drop 1) (parse_options argv opts).1) ∧
    (∀ (argv : List String) (opts : find_options_t) (code : Int),
      ReturnsCode (argv.drop 1) code → (parse_options argv opts).1 = code) ∧
    (∀ (argv : List String) (opts : find_options_t),
      (parse_options argv opts).1 = 0 ∨ (parse_options argv opts).1 = 1 ∨
        (parse_options argv opts).1 = -1) ∧
    parse_options ["find", "-fde"] init_options
      = (0, { init_options with type_file := true, type_dir := true, empty_filter := true }) := by
  have hsound : ∀ (argv : List String) (opts : find_options_t),
      ReturnsCode (argv.drop 1) (parse_options argv opts).1 := by
    intro argv opts
    obtain ⟨o, ho⟩ := parse_options_as_loop argv opts
    rw [ho]
    exact (parse_loop_returns_code _).1 o
  refine ⟨hsound, ?_, ?_, by decide⟩
  · intro argv opts code h
    obtain ⟨o, ho⟩ := parse_options_as_loop argv opts
    rw [ho]
    exact returns_code_unique _ code h o
  · intro argv opts
    have h := hsound argv opts
    generalize (parse_options argv opts).1 = code at h
    generalize List.drop 1 argv = tokens at h
    induction h with
    | used_up => exact Or.inl rfl
    | operand _ _ _ _ _ ih => exact ih
    | flags_only _ _ _ _ _ _ _ ih => exact ih
    | with_argument _ _ _ _ _ _ _ _ _ _ ih => exact ih
    | help => exact Or.inr (Or.inl rfl)
    | unknown => exact Or.inr (Or.inr rfl)
    | bundled => exact Or.inr (Or.inr rfl)
    | missing => exact Or.inr (Or.inr rfl)

/-- C24 at concrete command lines: "-fh" returns 1, "-x" and "-nf pat" and a
trailing "-n" return -1, and "-f -n pat" returns 0. -/
theorem parse_options_return_value_witness :
    (parse_options ["find", "-fh"] init_options).1 = 1 ∧
      (parse_options ["find", "-x"] init_options).1 = -1 ∧
      (parse_options ["find", "-nf", "pat"] init_options).1 = -1 ∧
      (parse_options ["find", "-f", "-n"] init_options).1 = -1 ∧
      (parse_options ["find", "-f", "-n", "pat"] init_options).1 = 0 ∧
      ReturnsCode ["-fh"] 1 :=
  ⟨by decide, by decide, by decide, by decide, by decide,
    (parse_options_return_value.1 ["find", "-fh"] init_options)⟩


/-! ## C27: the order of the reports -/

/-- C27: the walk reports an entry before what lies beneath it, and a child's
subtree before the child's later siblings. A call of `find_recursive` writes
the report of its own path (when it matches) first and the output of its
listing after it; and in a listing the output for a child directory is its
report from the loop, then the whole output of the recursive call on it, and
only then the output for the entries after it. The path of the child is the
one the walk builds in its buffer. -/
theorem reports_self_then_children (env : Env) (opts : find_options_t) (path : String) :
    (∀ (l : Option Stat) (st : Stat) (children : List (String × Node)),
      S_ISDIR st.st_mode = true →
      find_recursive env opts path (Node.mk l (some st) (some children))
        = (if matches_criteria env (some (children.map Prod.fst)) (filename_of path) st opts
            then [Output.stdout path] else [])
          ++ find_recursive_loop env opts path children) ∧
    (∀ (before after : List (String × Node)) (d_name : String) (child : Node) (st : Stat),
      d_name ≠ "." → d_name ≠ ".." → child.lstat = some st → S_ISDIR st.st_mode = true →
      find_recursive_loop env opts path (before ++ (d_name, child) :: after)
        = find_recursive_loop env opts path before
          ++ ((if matches_criteria env child.listing d_name st opts then
                [Output.stdout (snprintf_path path d_name)] else [])
              ++ find_recursive env opts (snprintf_path path d_name) child)
          ++ find_recursive_loop env opts path after) := by
  constructor
  · intro l st children hdir
    simp [find_recursive, hdir]
  · intro before after d_name child st hdot hdotdot hl hdir
    have hb : (d_name == "." || d_name == "..") = false := by simp [hdot, hdotdot]
    rw [find_recursive_loop_append, List.append_assoc]
    congr 1
    simp [find_recursive_loop, hb, hl, hdir]

/-- C27 on the listing `a.txt, b/{c.log}, z.txt` of `root` with no criterion:
`root/b` comes before `root/b/c.log`, and both come before `root/z.txt`. -/
theorem reports_self_then_children_witness :
    printed_paths (find_recursive_loop plain_env init_options "root"
        ([("a.txt", file_node 0)] ++ ("b", dir_node [("c.log", file_node 10)])
          :: [("z.txt", file_node 3)]))
        = ["root/a.txt", "root/b", "root/b", "root/b/c.log", "root/z.txt"] ∧
      find_recursive_loop plain_env init_options "root"
          ([("a.txt", file_node 0)] ++ ("b", dir_node [("c.log", file_node 10)])
            :: [("z.txt", file_node 3)])
        = find_recursive_loop plain_env init_options "root" [("a.txt", file_node 0)]
          ++ ((if matches_criteria plain_env (dir_node [("c.log", file_node 10)]).listing "b"
                  dir_stat init_options then
                [Output.stdout ("root" ++ "/" ++ "b")] else [])
              ++ find_recursive plain_env init_options ("root" ++ "/" ++ "b")
                  (dir_node [("c.log", file_node 10)]))
          ++ find_recursive_loop plain_env init_options "root" [("z.txt", file_node 3)] :=
  ⟨by decide,
    (reports_self_then_children plain_env init_options "root").2 [("a.txt", file_node 0)]
      [("z.txt", file_node 3)] "b" (dir_node [("c.log", file_node 10)]) dir_stat
      (by decide) (by decide) rfl (by decide)⟩

/-! ## C28: zero and negative size magnitudes -/

/-- C28 (the claim fails): the specification "+0" has magnitude zero with the
'+' comparator and is not treated as invalid: it matches a file of 10 bytes. -/
theorem size_plus_zero_matches :
    parse_size_spec (some "+0") = 0 ∧
      matches_criteria plain_env none "f" (file_stat 10)
        { init_options with size_spec := some "+0" } = true := by
  decide

/-- C28 as amended: a size specification whose parsed magnitude is negative
matches no entry, whatever else is set. A magnitude of zero is accepted with
every comparator: with '+' the entries of size greater than 0 match, with '-'
the entries of size less than 0 (so none of non-negative size), and without a
sign the entries of size 0. -/
theorem size_magnitude_zero_or_negative (env : Env) (listing : Option (List String))
    (filename : String) (st : Stat) (size_spec : String) :
    (parse_size_spec (some size_spec) < 0 →
      ∀ opts : find_options_t, opts.size_spec = some size_spec →
        matches_criteria env listing filename st opts = false) ∧
    (parse_size_spec (some size_spec) = 0 →
      (char_at size_spec.data 0 = '+' →
        (matches_criteria env listing filename st
            { init_options with size_spec := some size_spec } = true ↔ 0 < st.st_size)) ∧
      (char_at size_spec.data 0 = '-' →
        (matches_criteria env listing filename st
            { init_options with size_spec := some size_spec } = true ↔ st.st_size < 0) ∧
        (0 ≤ st.st_size →
          matches_criteria env listing filename st
            { init_options with size_spec := some size_spec } = false)) ∧
      (char_at size_spec.data 0 ≠ '+' → char_at size_spec.data 0 ≠ '-' →
        (matches_criteria env listing filename st
            { init_options with size_spec := some size_spec } = true ↔ st.st_size = 0))) := by
  constructor
  · intro hneg opts hset
    rw [← Bool.not_eq_true, matches_criteria_iff]
    rintro ⟨_, _, _, _, hsize, _⟩
    have := (hsize size_spec hset).1
    omega
  · intro hzero
    refine ⟨?_, ?_, ?_⟩
    · intro hp
      have hm : char_at size_spec.data 0 ≠ '-' := by rw [hp]; decide
      rw [matches_criteria_size_only]
      simp [size_holds, hzero, hp]
    · intro hm
      have hp : char_at size_spec.data 0 ≠ '+' := by rw [hm]; decide
      have hiff : matches_criteria env listing filename st
            { init_options with size_spec := some size_spec } = true ↔ st.st_size < 0 := by
        rw [matches_criteria_size_only]
        simp [size_holds, hzero, hm]
      refine ⟨hiff, ?_⟩
      intro hnn
      rw [← Bool.not_eq_true, hiff]
      omega
    · intro hp hm
      rw [matches_criteria_size_only]
      simp [size_holds, hzero, hp, hm]

/-- C28 as amended, at "+0", "-0", "0" and "+-5": a 10-byte file matches "+0"
only, an empty file matches "0" only, and nothing matches "+-5", whose
magnitude is -5. -/
theorem size_magnitude_zero_or_negative_witness :
    parse_size_spec (some "+-5") = -5 ∧
      matches_criteria plain_env none "f" (file_stat 10)
        { init_options with size_spec := some "+-5" } = false ∧
      matches_criteria plain_env none "f" (file_stat 10)
        { init_options with size_spec := some "+0" } = true ∧
      matches_criteria plain_env none "f" (file_stat 10)
        { init_options with size_spec := some "-0" } = false ∧
      matches_criteria plain_env none "f" (file_stat 0)
        { init_options with size_spec := some "0" } = true :=
  ⟨by decide,
    (size_magnitude_zero_or_negative plain_env none "f" (file_stat 10) "+-5").1 (by decide)
      { init_options with size_spec := some "+-5" } rfl,
    (((size_magnitude_zero_or_negative plain_env none "f" (file_stat 10) "+0").2
      (by decide)).1 (by decide)).2 (by decide),
    by decide, by decide⟩

/-! ## C30: the three age comparators -/

/-- C30: with only the age criterion set and `mtime_days = n`, exactly one of
the three forms (prefix '+', prefix '-', no prefix) makes `matches_criteria`
return true for a given entry and clock reading, and an entry aged exactly `n`
days is matched by the form without prefix and by no other. -/
theorem age_comparators_partition (env : Env) (listing : Option (List String))
    (filename : String) (st : Stat) (n : Int) :
    ((matches_criteria env listing filename st
          { init_options with mtime_prefix := '+', mtime_days := n, mtime_set := true } = true ∧
        matches_criteria env listing filename st
          { init_options with mtime_prefix := '-', mtime_days := n, mtime_set := true } = false ∧
        matches_criteria env listing filename st
          { init_options with mtime_prefix := '\x00', mtime_days := n, mtime_set := true }
            = false) ∨
      (matches_criteria env listing filename st
          { init_options with mtime_prefix := '+', mtime_days := n, mtime_set := true } = false ∧
        matches_criteria env listing filename st
          { init_options with mtime_prefix := '-', mtime_days := n, mtime_set := true } = true ∧
        matches_criteria env listing filename st
          { init_options with mtime_prefix := '\x00', mtime_days := n, mtime_set := true }
            = false) ∨
      (matches_criteria env listing filename st
          { init_options with mtime_prefix := '+', mtime_days := n, mtime_set := true } = false ∧
        matches_criteria env listing filename st
          { init_options with mtime_prefix := '-', mtime_days := n, mtime_set := true } = false ∧
        matches_criteria env listing filename st
          { init_options with mtime_prefix := '\x00', mtime_days := n, mtime_set := true }
            = true)) ∧
    (days_diff env.now st.st_mtime = n →
      matches_criteria env listing filename st
          { init_options with mtime_prefix := '+', mtime_days := n, mtime_set := true } = false ∧
        matches_criteria env listing filename st
          { init_options with mtime_prefix := '-', mtime_days := n, mtime_set := true } = false ∧
        matches_criteria env listing filename st
          { init_options with mtime_prefix := '\x00', mtime_days := n, mtime_set := true }
            = true) := by
  have hp : matches_criteria env listing filename st
      { init_options with mtime_prefix := '+', mtime_days := n, mtime_set := true } = true
      ↔ n < days_diff env.now st.st_mtime := by
    rw [matches_criteria_mtime_only]
    simp [age_holds]
  have hm : matches_criteria env listing filename st
      { init_options with mtime_prefix := '-', mtime_days := n, mtime_set := true } = true
      ↔ days_diff env.now st.st_mtime < n := by
    rw [matches_criteria_mtime_only]
    simp [age_holds]
  have he : matches_criteria env listing filename st
      { init_options with mtime_prefix := '\x00', mtime_days := n, mtime_set := true } = true
      ↔ days_diff env.now st.st_mtime = n := by
    rw [matches_criteria_mtime_only]
    simp [age_holds]
  simp only [← Bool.not_eq_true, hp, hm, he]
  constructor
  · rcases lt_trichotomy (days_diff env.now st.st_mtime) n with h | h | h
    · right; left
      exact ⟨by omega, h, by omega⟩
    · right; right
      exact ⟨by omega, by omega, h⟩
    · left
      exact ⟨h, by omega, by omega⟩
  · intro h
    exact ⟨by omega, by omega, h⟩


/-! ## C29: how often an entry is reported -/

theorem printed_paths_stdout_if (b : Bool) (path : String) :
    printed_paths (if b = true then [Output.stdout path] else []) = if b = true then [path] else [] := by
  cases b <;> rfl

mutual
theorem entry_reports_eq (env : Env) (opts : find_options_t) (path d_name : String)
    (hname : '/' ∉ d_name.data) : (child : Node) → steady child →
      paths_fit (path ++ "/" ++ d_name) child →
      ∀ l, child.lstat = some l →
        printed_paths
            ((if matches_criteria env child.listing d_name l opts then
                [Output.stdout (path ++ "/" ++ d_name)] else [])
              ++ (if S_ISDIR l.st_mode then
                    find_recursive env opts (path ++ "/" ++ d_name) child else []))
          = expected_reports env opts d_name (path ++ "/" ++ d_name) child
  | .mk none _ _, _, _, l, hl => by simp [Node.lstat] at hl
  | .mk (some l') stat none, hs, _, l, hl => by
    simp only [Node.lstat, Option.some.injEq] at hl
    subst hl
    simp only [steady] at hs
    simp [expected_reports, Node.listing, Node.dir, hs, printed_paths_append,
      printed_paths_stdout_if, printed_paths]
  | .mk (some l') stat (some children), hs, hfit, l, hl => by
    simp only [Node.lstat, Option.some.injEq] at hl
    subst hl
    simp only [steady] at hs
    simp only [paths_fit] at hfit
    by_cases hdir : S_ISDIR l'.st_mode = true
    · obtain ⟨hstat, hbelow⟩ := hs hdir
      subst hstat
      have ih := loop_reports_eq env opts (path ++ "/" ++ d_name) children hbelow hfit
      have hfn := filename_of_child path d_name hname
      simp only [expected_reports, Node.listing, Node.dir, Option.map_some', hdir, if_true,
        find_recursive, Option.getD_some, Bool.not_true, Bool.false_eq_true, if_false, hfn,
        printed_paths_append, printed_paths_stdout_if, ih]
      by_cases hm : matches_criteria env (some (List.map Prod.fst children)) d_name l' opts = true
      · simp [hm, List.replicate]
      · simp [hm]
    · have hdir' : S_ISDIR l'.st_mode = false := by simpa using hdir
      simp [expected_reports, Node.listing, Node.dir, hdir', printed_paths_append,
        printed_paths_stdout_if, printed_paths]
theorem loop_reports_eq (env : Env) (opts : find_options_t) (path : String) :
    (children : List (String × Node)) → steady_below children →
      paths_fit_below path children →
      printed_paths (find_recursive_loop env opts path children)
        = expected_reports_below env opts path children
  | [], _, _ => rfl
  | (d_name, child) :: rest, hs, hfit => by
    simp only [steady_below] at hs
    obtain ⟨hchild, hrest⟩ := hs
    simp only [paths_fit_below] at hfit
    obtain ⟨hfitchild, hfitrest⟩ := hfit
    have ihrest := loop_reports_eq env opts path rest hrest hfitrest
    by_cases hdots : d_name = "." ∨ d_name = ".."
    · have hb : (d_name == "." || d_name == "..") = true := by simpa using hdots
      simp only [find_recursive_loop, expected_reports_below, hb, hdots, if_true, ihrest]
    · have hb : (d_name == "." || d_name == "..") = false := by simpa using hdots
      have hc : '/' ∉ d_name.data ∧ steady child := by
        rcases hchild with h | h | h
        · exact absurd (Or.inl h) hdots
        · exact absurd (Or.inr h) hdots
        · exact h
      have hfc : strlen (path ++ "/" ++ d_name).data < PATH_MAX ∧
          paths_fit (path ++ "/" ++ d_name) child := by
        rcases hfitchild with h | h | h
        · exact absurd (Or.inl h) hdots
        · exact absurd (Or.inr h) hdots
        · exact h
      have hsn := snprintf_path_of_fits path d_name hfc.1
      cases hl : child.lstat with
      | none =>
        rcases child with ⟨_ | l, s, d⟩
        · exact absurd hc.2 (by simp [steady])
        · simp [Node.lstat] at hl
      | some l =>
        have ih := entry_reports_eq env opts path d_name hc.1 child hc.2 hfc.2 l hl
        simp only [find_recursive_loop, expected_reports_below, hb, hdots, Bool.false_eq_true,
          if_false, hl, printed_paths_append, ihrest, ← ih, hsn]
end

/-- C29 (the claim fails): in the directory `long_root`, whose path takes 4093
bytes, with the two files `x` and `xy`, every fetch and open succeeds, and with
no criterion set the walk prints the path of the file `x` twice and the path
of the file `xy` not at all, where each is expected once: the path built for
`xy` is cut to the 4095 bytes of the buffer, which is the path of `x`. -/
theorem find_recursive_reports_file_twice_on_cut_path :
    steady_root tree_x_xy ∧ strlen long_root.data = 4093 ∧
      printed_paths (find_recursive plain_env init_options long_root tree_x_xy)
        = [long_root, long_root ++ "/x", long_root ++ "/x"] ∧
      expected_root_reports plain_env init_options long_root tree_x_xy
        = [long_root, long_root ++ "/x", long_root ++ "/xy"] ∧
      printed_paths (find_recursive plain_env init_options long_root tree_x_xy)
        ≠ expected_root_reports plain_env init_options long_root tree_x_xy := by
  have hm := fun listing filename st =>
    matches_criteria_no_criteria plain_env listing filename st init_options
      no_criteria_init_options
  have hd : S_ISDIR dir_stat.st_mode = true := by decide
  have hf : ∀ size : Int, S_ISDIR (file_stat size).st_mode = false := fun _ => by
    show S_ISDIR 0o100644 = false
    decide
  have hx : long_root ++ "/" ++ "x" = long_root ++ "/x" := by
    rw [String.append_assoc]; rfl
  have hxy : long_root ++ "/" ++ "xy" = long_root ++ "/xy" := by
    rw [String.append_assoc]; rfl
  have hne : long_root ++ "/x" ≠ long_root ++ "/xy" :=
    long_root_child_ne ['/', 'x'] ['/', 'x', 'y'] (by decide)
  have hexp : expected_root_reports plain_env init_options long_root tree_x_xy
      = [long_root, long_root ++ "/x", long_root ++ "/xy"] := by
    simp [tree_x_xy, dir_node, file_node, pseudo_entry, expected_root_reports,
      expected_reports_below, expected_reports, hm, hd, hf, hx, hxy]
  have hprinted : printed_paths (find_recursive plain_env init_options long_root tree_x_xy)
      = [long_root, long_root ++ "/x", long_root ++ "/x"] := by
    rw [find_recursive_long_root]
    rfl
  refine ⟨?_, strlen_long_root, hprinted, hexp, ?_⟩
  · simp [tree_x_xy, dir_node, file_node, pseudo_entry, steady_root, steady_below, steady, hf]
  · rw [hprinted, hexp]
    intro h
    simp only [List.cons.injEq, and_true, true_and] at h
    exact hne h

/-- C29 as amended: in an unchanging tree in which every metadata fetch and
directory open succeeds and every path takes less than `PATH_MAX` bytes, the
lines the walk prints are those the specification expects, in order: the root
path once if the root matches, each matching directory below the root twice
in a row (from the listing loop of its parent and from the start of its own
recursive call), and each matching entry of another type once. -/
theorem find_recursive_reports_directories_twice (env : Env) (opts : find_options_t)
    (path : String) (root : Node) (hroot : steady_root root) (hfit : paths_fit path root) :
    printed_paths (find_recursive env opts path root)
      = expected_root_reports env opts path root := by
  rcases root with ⟨l, _ | s, _ | children⟩
  · simp [steady_root] at hroot
  · simp [steady_root] at hroot
  · simp only [steady_root] at hroot
    simp [find_recursive, expected_root_reports, hroot, printed_paths_stdout_if]
  · simp only [steady_root] at hroot
    simp only [paths_fit] at hfit
    by_cases hdir : S_ISDIR s.st_mode = true
    · have ih := loop_reports_eq env opts path children (hroot hdir) hfit
      simp [find_recursive, expected_root_reports, hdir, printed_paths_append,
        printed_paths_stdout_if, ih]
    · have hdir' : S_ISDIR s.st_mode = false := by simpa using hdir
      simp [find_recursive, expected_root_reports, hdir', printed_paths_stdout_if]

theorem steady_root_tree_a_b_c : steady_root tree_a_b_c := by
  have hf : ∀ size : Int, S_ISDIR (file_stat size).st_mode = false := fun _ => by
    show S_ISDIR 0o100644 = false
    decide
  simp [tree_a_b_c, dir_node, file_node, pseudo_entry, steady_root, steady_below, steady, hf]

/-- C29 as amended, on the tree `root/{a.txt, b/{c.log}}` with no criterion:
`root` once, `root/a.txt` once, the directory `root/b` twice, `root/b/c.log`
once. -/
theorem find_recursive_reports_directories_twice_witness :
    steady_root tree_a_b_c ∧ paths_fit "root" tree_a_b_c ∧
      expected_root_reports plain_env init_options "root" tree_a_b_c
        = ["root", "root/a.txt", "root/b", "root/b", "root/b/c.log"] ∧
      printed_paths (find_recursive plain_env init_options "root" tree_a_b_c)
        = expected_root_reports plain_env init_options "root" tree_a_b_c :=
  ⟨steady_root_tree_a_b_c, paths_fit_tree_a_b_c, by decide,
    find_recursive_reports_directories_twice plain_env init_options "root" tree_a_b_c
      steady_root_tree_a_b_c paths_fit_tree_a_b_c⟩

end Find

/-! ## The `ls` comparison function -/

namespace Ls

/-- C25 (contradicted by the code): with `sort_by_time` set and `dirs_first`,
`group_by_ext` and `reverse_sort` unset, `compare_files a b` is 1, and so not
negative, whenever the modification time of `a` is later than that of `b`, and
`compare_files b a` is -1: the file modified less recently is ordered first. -/
theorem compare_files_orders_older_first (file_a file_b : file_info_t)
    (options : ls_options_t) (htime : options.sort_by_time ≠ 0)
    (hdirs : options.dirs_first = 0) (hext : options.group_by_ext = 0)
    (hrev : options.reverse_sort = 0)
    (hlater : file_a.stat_info.st_mtime > file_b.stat_info.st_mtime) :
    compare_files file_a file_b options = 1
      ∧ ¬ compare_files file_a file_b options < 0
      ∧ compare_files file_b file_a options = -1 := by
  have hnot : ¬ file_a.stat_info.st_mtime < file_b.stat_info.st_mtime := by omega
  have hone : compare_files file_a file_b options = 1 := by
    simp [compare_files, compare_by_extension, compare_by_time_or_name, htime, hdirs, hext,
      hrev, hnot, hlater]
  refine ⟨hone, by rw [hone]; decide, ?_⟩
  have hlt : file_b.stat_info.st_mtime < file_a.stat_info.st_mtime := hlater
  simp [compare_files, compare_by_extension, compare_by_time_or_name, htime, hdirs, hext,
    hrev, hlt]

/-- The file modified at time 2000 against the one modified at time 1000, with
only `sort_by_time` set: the comparison is 1. -/
theorem compare_files_orders_older_first_witness :
    compare_files (file_at "new" 2000) (file_at "old" 1000) time_only = 1
      ∧ ¬ compare_files (file_at "new" 2000) (file_at "old" 1000) time_only < 0
      ∧ compare_files (file_at "old" 1000) (file_at "new" 2000) time_only = -1 :=
  compare_files_orders_older_first (file_at "new" 2000) (file_at "old" 1000) time_only
    (by decide) (by decide) (by decide) (by decide) (by decide)

end Ls

/-! ## The `cat` line loop -/

namespace Cat

theorem is_blank_chars_ne_zero_iff (chars : List Char) :
    is_blank_chars chars ≠ 0
      ↔ ∀ c ∈ chars.takeWhile (fun c => c != '\x00'), is_blank_char c := by
  induction chars with
  | nil => simp [is_blank_chars]
  | cons c rest ih =>
    by_cases hnul : c = '\x00'
    · subst hnul
      simp [is_blank_chars]
    · have hn : (c == '\x00') = false := by simpa using hnul
      have hn' : (c != '\x00') = true := by simpa using hnul
      have htake : List.takeWhile (fun c => c != '\x00') (c :: rest)
          = c :: List.takeWhile (fun c => c != '\x00') rest := by
        simp [List.takeWhile_cons, hn']
      rw [htake]
      by_cases h : is_blank_char c
      · have hc : (c != ' ' && c != '\t' && c != '\n' && c != '\r') = false := by
          rcases h with h | h | h | h <;> subst h <;> decide
        simp only [is_blank_chars, hn, hc, Bool.false_eq_true, if_false, List.mem_cons,
          forall_eq_or_imp, h, true_and]
        exact ih
      · have hc : (c != ' ' && c != '\t' && c != '\n' && c != '\r') = true := by
          simp only [is_blank_char, not_or] at h
          simp [h.1, h.2.1, h.2.2.1, h.2.2.2]
        simp [is_blank_chars, hn, hc, h]

theorem c_string_of_text (line : String) (h : is_text line) : c_string line = line := by
  have hall : ∀ c ∈ line.data, (c != '\x00') = true := by
    intro c hc
    simp only [bne_iff_ne, ne_eq]
    rintro rfl
    exact h hc
  unfold c_string
  rw [List.takeWhile_eq_self_iff.mpr hall]

theorem map_c_string_of_text (lines : List String) (h : ∀ line ∈ lines, is_text line) :
    lines.map c_string = lines := by
  induction lines with
  | nil => rfl
  | cons line rest ih =>
    rw [List.map_cons, c_string_of_text line (h line (List.mem_cons_self _ _)),
      ih (fun l hl => h l (List.mem_cons_of_mem _ hl))]

theorem written_lines_cat_file_loop (opts : cat_options_t) (hsqueeze : opts.squeeze_blank ≠ 0)
    (hhead : opts.head_lines ≤ 0) (lines : List String) :
    ∀ s : LoopState,
      written_lines (cat_file_loop opts lines s)
        = (kept_after (s.prev_blank != 0) lines).map c_string := by
  have hh : ¬ opts.head_lines > 0 := by omega
  induction lines with
  | nil => intro s; simp [cat_file_loop, written_lines, kept_after]
  | cons line rest ih =>
    intro s
    have hb : (is_blank_line line != 0) = blank line := rfl
    by_cases hskip : (blank line && (s.prev_blank != 0)) = true
    · have hs : (opts.squeeze_blank != 0 && is_blank_line line != 0 && s.prev_blank != 0)
          = true := by
        simp only [Bool.and_eq_true] at hskip
        simp [hsqueeze, hb, hskip.1, hskip.2]
      have hp : (s.prev_blank != 0) = true := by
        simp only [Bool.and_eq_true] at hskip
        exact hskip.2
      rw [cat_file_loop.eq_def]
      simp only [hh, decide_False, Bool.false_and, Bool.false_eq_true, if_false, hs, if_true]
      rw [ih, kept_after, if_pos hskip]
      simp [hp]
    · have hs : ¬ (opts.squeeze_blank != 0 && is_blank_line line != 0 && s.prev_blank != 0)
          = true := by
        intro h
        apply hskip
        simp only [Bool.and_eq_true] at h
        simp [← hb, h.1.2, h.2]
      rw [cat_file_loop.eq_def]
      simp only [hh, decide_False, Bool.false_and, Bool.false_eq_true, if_false, hs]
      rw [kept_after, if_neg hskip]
      split_ifs <;> simp [written_lines, ih, hb]

theorem heads_splitBy_loop (lines : List String) :
    ∀ (a : String) (g : List String) (gs : List (List String)),
      (List.splitBy.loop (fun a b => blank a && blank b) lines a g gs).filterMap List.head?
        = gs.reverse.filterMap List.head? ++ (g.reverse ++ [a]).take 1
            ++ kept_after (blank a) lines := by
  induction lines with
  | nil =>
    intro a g gs
    cases hg : g.reverse ++ [a] with
    | nil => simp at hg
    | cons h t => simp [List.splitBy.loop, kept_after, hg]
  | cons b rest ih =>
    intro a g gs
    by_cases hr : (blank a && blank b) = true
    · have hba : (blank b && blank a) = true := by rw [Bool.and_comm]; exact hr
      have ha : blank b = true := by
        simp only [Bool.and_eq_true] at hr
        exact hr.2
      have hl : List.splitBy.loop (fun a b => blank a && blank b) (b :: rest) a g gs
          = List.splitBy.loop (fun a b => blank a && blank b) rest b (a :: g) gs := by
        simp [List.splitBy.loop, hr]
      rw [hl, ih, kept_after, if_pos hba, ha]
      cases hg : g.reverse ++ [a] with
      | nil => simp at hg
      | cons h t => simp [hg]
    · have hba : ¬ (blank b && blank a) = true := by rw [Bool.and_comm]; exact hr
      have hl : List.splitBy.loop (fun a b => blank a && blank b) (b :: rest) a g gs
          = List.splitBy.loop (fun a b => blank a && blank b) rest b []
              ((a :: g).reverse :: gs) := by
        simp [List.splitBy.loop, hr]
      rw [hl, ih, kept_after, if_neg hba]
      cases hg : g.reverse ++ [a] with
      | nil => simp at hg
      | cons h t => simp [hg]

theorem squeezed_eq_kept_after (lines : List String) :
    squeezed lines = kept_after false lines := by
  cases lines with
  | nil => rfl
  | cons a rest =>
    have h := heads_splitBy_loop rest a [] []
    simp only [List.reverse_nil, List.filterMap_nil, List.nil_append, List.take_succ_cons,
      List.take_zero, List.singleton_append] at h
    simp [squeezed, List.splitBy, h, kept_after]

theorem kept_after_sublist (lines : List String) :
    ∀ previous : Bool, List.Sublist (kept_after previous lines) lines := by
  induction lines with
  | nil => intro previous; simp [kept_after]
  | cons line rest ih =>
    intro previous
    rw [kept_after]
    split_ifs
    · exact (ih true).cons line
    · exact (ih (blank line)).cons₂ line

theorem kept_after_not_blank (lines : List String) :
    ∀ previous : Bool,
      (kept_after previous lines).filter (fun l => !blank l)
        = lines.filter (fun l => !blank l) := by
  induction lines with
  | nil => intro previous; simp [kept_after]
  | cons line rest ih =>
    intro previous
    rw [kept_after]
    split_ifs with h
    · simp only [Bool.and_eq_true] at h
      simp [ih, h.1]
    · simp [ih, List.filter_cons]

theorem kept_after_head_not_blank (lines : List String) (first : String) (tail : List String)
    (h : kept_after true lines = first :: tail) : blank first = false := by
  induction lines with
  | nil => simp [kept_after] at h
  | cons line rest ih =>
    rw [kept_after] at h
    split_ifs at h with hb
    · exact ih h
    · simp only [List.cons.injEq] at h
      rw [← h.1]
      simpa using hb

theorem kept_after_chain (lines : List String) :
    ∀ previous : Bool,
      List.Chain' (fun a b => ¬ (blank a = true ∧ blank b = true))
        (kept_after previous lines) := by
  induction lines with
  | nil => intro previous; simp [kept_after]
  | cons line rest ih =>
    intro previous
    rw [kept_after]
    split_ifs with h
    · exact ih true
    · cases hk : kept_after (blank line) rest with
      | nil => simp
      | cons first tail =>
        rw [List.chain'_cons]
        refine ⟨?_, hk ▸ ih (blank line)⟩
        rintro ⟨hl, hf⟩
        rw [hl] at hk
        have := kept_after_head_not_blank rest first tail hk
        rw [hf] at this
        exact Bool.noConfusion this

/-- C26 (the claim fails): a line that holds a NUL byte is judged and written
up to that byte only. With `squeeze_blank` set, the line of a NUL byte, `x`
and LF that follows an empty line counts as blank and is not written, though
it holds more than spaces, tabs, CR and LF; and of the line `a`, NUL, `b`, LF
only `a` is written. -/
theorem cat_file_cuts_lines_at_nul :
    written_lines (cat_file squeeze_only ["\n", "\x00x\n", "a\x00b\n"]) = ["\n", "a"] ∧
      is_blank_line "\x00x\n" = 1 ∧
      ¬ (∀ c ∈ "\x00x\n".data, is_blank_char c) := by
  refine ⟨by decide, by decide, ?_⟩
  intro h
  have hx := h 'x' (by decide)
  unfold is_blank_char at hx
  revert hx
  decide

/-- C26 as amended: with `squeeze_blank` set and no head limit, the lines
`cat_file` writes are the input with every maximal run of consecutive blank
lines reduced to its first line, each line written up to its first NUL byte,
and a line is blank exactly when it holds only spaces, tabs, CR and LF before
its first NUL byte. When no line holds a NUL byte, the lines written are
those lines of the input themselves: they are a subsequence of the input, the
lines that are not blank are all written in their original order, no two
adjacent written lines are both blank, and a line is blank exactly when it
holds only spaces, tabs, CR and LF. -/
theorem cat_file_squeezes_blank_runs (opts : cat_options_t) (lines : List String)
    (hsqueeze : opts.squeeze_blank ≠ 0) (hhead : opts.head_lines ≤ 0) :
    (written_lines (cat_file opts lines) = (squeezed lines).map c_string
      ∧ ∀ line : String, is_blank_line line ≠ 0 ↔ ∀ c ∈ (c_string line).data, is_blank_char c)
    ∧ ((∀ line ∈ lines, is_text line) →
      written_lines (cat_file opts lines) = squeezed lines
        ∧ List.Sublist (written_lines (cat_file opts lines)) lines
        ∧ (written_lines (cat_file opts lines)).filter (fun l => !blank l)
            = lines.filter (fun l => !blank l)
        ∧ List.Chain' (fun a b => ¬ (blank a = true ∧ blank b = true))
            (written_lines (cat_file opts lines))
        ∧ ∀ line ∈ lines, is_blank_line line ≠ 0 ↔ ∀ c ∈ line.data, is_blank_char c) := by
  have hw : written_lines (cat_file opts lines)
      = (kept_after false lines).map c_string := by
    rw [cat_file, written_lines_cat_file_loop opts hsqueeze hhead]
    rfl
  have hblank : ∀ line : String,
      is_blank_line line ≠ 0 ↔ ∀ c ∈ (c_string line).data, is_blank_char c :=
    fun line => is_blank_chars_ne_zero_iff line.data
  refine ⟨⟨?_, hblank⟩, ?_⟩
  · rw [hw, squeezed_eq_kept_after]
  · intro htext
    have hkept : ∀ line ∈ kept_after false lines, is_text line :=
      fun line hl => htext line ((kept_after_sublist lines false).subset hl)
    have hw2 : written_lines (cat_file opts lines) = kept_after false lines := by
      rw [hw, map_c_string_of_text _ hkept]
    refine ⟨?_, ?_, ?_, ?_, ?_⟩
    · rw [hw2, squeezed_eq_kept_after]
    · rw [hw2]; exact kept_after_sublist lines false
    · rw [hw2]; exact kept_after_not_blank lines false
    · rw [hw2]; exact kept_after_chain lines false
    · intro line hl
      have h := hblank line
      rw [c_string_of_text line (htext line hl)] at h
      exact h

/-- C26 as amended, at the input a, blank, blank, blank, b, blank, blank with
only `squeeze_blank` set: no line holds a NUL byte, and the lines written are
a, blank, b, blank. -/
theorem cat_file_squeezes_blank_runs_witness :
    squeezed ["a\n", "\n", " \t\n", "\r\n", "b\n", "\n", "\n"] = ["a\n", "\n", "b\n", "\n"]
      ∧ written_lines (cat_file squeeze_only ["a\n", "\n", " \t\n", "\r\n", "b\n", "\n", "\n"])
          = squeezed ["a\n", "\n", " \t\n", "\r\n", "b\n", "\n", "\n"] :=
  ⟨by decide,
    ((cat_file_squeezes_blank_runs squeeze_only
      ["a\n", "\n", " \t\n", "\r\n", "b\n", "\n", "\n"] (by decide) (by decide)).2
        (by decide)).1⟩

end Cat
